import Mathlib

/-!
Shallow embedding of the ComposTy SQL-composition core (`buildComplexSQL` and
its clause builders, the validator, the parameter rewriter, and the
`paginateData` helper), translated from the TypeScript source, together with
theorems settling the specification claims.

Modelling conventions:
* JavaScript objects with insertion-ordered string keys are `List (String × _)`.
* Optional (possibly-`undefined`) values are `Option _`.
* JavaScript numbers used as page indices/sizes are `Int` (the validator must
  be able to observe negative inputs).
* `unknown`-typed bind-parameter values are a type parameter `α`.
* Functions that `throw new SQLBuildError(msg)` return `Except String _`.
* The two global-regex `String.replace` passes are recursive scanners over
  `List Char`, consuming one match (or one character) per step, mirroring the
  left-to-right, non-rescanning semantics of `String.prototype.replace`.
-/

namespace ComposTy

/-- Character class of `[a-zA-Z_]` (JS regex identifier start). -/
def isIdentStart (c : Char) : Bool :=
  c.isAlpha || c = '_'

/-- Character class of `[a-zA-Z0-9_]` (JS regex identifier continuation,
and the characters kept by `sanitizeIdentifier`). -/
def isIdentChar (c : Char) : Bool :=
  c.isAlphanum || c = '_'

/-- The `sanitizeIdentifier`: `identifier.replace(/[^a-zA-Z0-9_]/g, "")`. -/
def sanitizeIdentifier (identifier : String) : String :=
  String.mk (identifier.data.filter isIdentChar)

/-- JS `String.prototype.trim()`: strip leading and trailing whitespace. -/
def jsTrim (s : String) : String :=
  String.mk (((s.data.dropWhile Char.isWhitespace).reverse.dropWhile
    Char.isWhitespace).reverse)

/-- JS `Array.prototype.join(sep)`. -/
def joinSep (sep : String) : List String → String
  | [] => ""
  | [x] => x
  | x :: y :: xs => x ++ sep ++ joinSep sep (y :: xs)

/-- JS truthiness of an optional string: `undefined` and `""` are falsy. -/
def truthyS : Option String → Bool
  | some s => s ≠ ""
  | none => false

/-- First-match lookup in an insertion-ordered string-keyed object,
modelling `obj[key]` for objects with unique keys. -/
def jsLookup (m : List (String × α)) (k : String) : Option α :=
  (m.find? (fun p => p.1 = k)).map (fun p => p.2)

/-- Key-membership test, modelling JS `key in obj`. -/
def hasKey (m : List (String × α)) (k : String) : Bool :=
  m.any (fun p => p.1 = k)

/-- One step of JS object-spread accumulation: inserting a key/value pair
updates an existing key in place (keeping its position) or appends it. -/
def objInsert (o : List (String × α)) (kv : String × α) : List (String × α) :=
  if o.any (fun p => p.1 = kv.1) then
    o.map (fun p => if p.1 = kv.1 then (p.1, kv.2) else p)
  else o ++ [kv]

/-- JS `{...acc, ...m}` for insertion-ordered objects. -/
def spreadMerge (acc m : List (String × α)) : List (String × α) :=
  m.foldl objInsert acc

/-- The `SQLQueryView`: a named SQL fragment that may depend on other views
(the `dependsOn` object keys are JS insertion-ordered). -/
inductive SQLQueryView where
  | mk (name : String) (query : String)
      (dependsOn : List (String × SQLQueryView))

/-- The `name` field of a `SQLQueryView`. -/
def SQLQueryView.name : SQLQueryView → String
  | .mk n _ _ => n

/-- The `query` field of a `SQLQueryView`. -/
def SQLQueryView.query : SQLQueryView → String
  | .mk _ q _ => q

/-- The `dependsOn` field of a `SQLQueryView`. -/
def SQLQueryView.dependsOn : SQLQueryView → List (String × SQLQueryView)
  | .mk _ _ d => d

/-- The `WithSubquerySQL`: one CTE-eligible subquery component.  The TS `alias`
field is rendered here as `aliasName` (`alias` is a Mathlib command keyword);
the optional `params` field is never read by any builder and is omitted. -/
structure WithSubquerySQL where
  name : String
  aliasName : String
  query : String
  joinType : String
  joinOn : String
  fields : List (String × String)
  dependsOn : Option (List (String × SQLQueryView))

/-- The `SQLQuery`: the root composition unit.  The TS union
`UsingSourceTable | UsingSourceQuery` is rendered as two options (the
runtime validator, not the type, enforces presence); the TS `where` field
is rendered as `whereCond` (`where` is a Lean keyword). -/
structure SQLQuery where
  sourceTable : Option String
  sourceQuery : Option String
  aliasName : String
  fields : List (String × String)
  whereCond : Option String
  withSubqueries : Option (List WithSubquerySQL)

/-- The `BuildComplexSQLParams`: per-invocation options, polymorphic in the
`unknown` bind-parameter value type. -/
structure BuildComplexSQLParams (α : Type) where
  whereCond : Option String
  params : Option (List (String × α))
  page : Option Int
  page_size : Option Int
  order_by : Option (List String)

/-- The `{ query, params }` value returned by `buildComplexSQL`. -/
structure BuildResult (α : Type) where
  query : String
  params : List α
deriving Repr

mutual

/-- The `expandQueryView`: depth-first expansion of one view definition —
all dependencies first, then the view's own `name AS (query)` entry.
No de-duplication happens here. -/
def expandQueryView : SQLQueryView → List String
  | .mk n q deps => expandDeps deps ++ [jsTrim n ++ " AS (" ++ jsTrim q ++ ")"]

/-- The `for (const key in queryView.dependsOn) result.push(...expand(...))`:
expand each dependency value in key order. -/
def expandDeps : List (String × SQLQueryView) → List String
  | [] => []
  | (_, v) :: rest => expandQueryView v ++ expandDeps rest

end

/-- The merged direct-dependency object
`subqueries.reduce((acc, sq) => sq.dependsOn ? {...acc, ...sq.dependsOn} : acc, {})`. -/
def mergedDeps (subqueries : List WithSubquerySQL) :
    List (String × SQLQueryView) :=
  subqueries.foldl
    (fun acc sq =>
      match sq.dependsOn with
      | some m => spreadMerge acc m
      | none => acc) []

/-- The full list of CTE entries of the WITH clause: expanded dependency
entries first, then one sanitized `name AS (query)` entry per subquery. -/
def withClauseEntries (subqueries : List WithSubquerySQL) : List String :=
  (mergedDeps subqueries).flatMap (fun p => expandQueryView p.2) ++
    subqueries.map (fun sq =>
      sanitizeIdentifier sq.name ++ " AS (" ++ jsTrim sq.query ++ ")")

/-- The `buildWithClause`. -/
def buildWithClause (subqueries : List WithSubquerySQL) : String :=
  match subqueries with
  | [] => ""
  | _ :: _ => "WITH " ++ joinSep ", " (withClauseEntries subqueries)

/-- The rendered main-query field projections, in insertion order. -/
def mainFieldExprs (query : SQLQuery) : List String :=
  query.fields.map (fun p => jsTrim p.2 ++ " AS " ++ sanitizeIdentifier p.1)

/-- The rendered subquery field projections, components in declaration
order, fields in insertion order. -/
def subqueryFieldExprs (query : SQLQuery) : List String :=
  (query.withSubqueries.getD []).flatMap (fun sq =>
    sq.fields.map (fun p => jsTrim p.2 ++ " AS " ++ sanitizeIdentifier p.1))

/-- The two synthetic window-count columns appended for pagination metadata. -/
def windowCountCols (query : SQLQuery) : List String :=
  ["COUNT(" ++ query.aliasName ++
     ".id) OVER (ORDER BY $rev_order_by) - 1 AS _sql_util_remaining",
   "COUNT(" ++ query.aliasName ++
     ".id) OVER (ORDER BY $order_by) AS _sql_util_num"]

/-- The `buildSelectClause`: main fields, then subquery fields, then (only when
more than one order term and both page and page_size are present) the two
synthetic window-count columns. -/
def buildSelectClause (query : SQLQuery)
    (options : Option (BuildComplexSQLParams α)) : String :=
  let allFields := mainFieldExprs query ++ subqueryFieldExprs query ++
    (match options with
     | some o =>
       match o.order_by, o.page_size, o.page with
       | some ob, some _, some _ =>
         if ob.length > 1 then windowCountCols query else []
       | _, _, _ => []
     | none => [])
  "SELECT " ++ joinSep ", " allFields

/-- The `buildJoinClauses`. -/
def buildJoinClauses (subqueries : List WithSubquerySQL) : String :=
  match subqueries with
  | [] => ""
  | _ :: _ =>
    joinSep "\n" (subqueries.map (fun sq =>
      sq.joinType ++ " " ++ sanitizeIdentifier sq.name ++ " AS " ++
        sanitizeIdentifier sq.aliasName ++ " ON " ++ sq.joinOn))

/-- The per-subquery loop of `validateInputs`. -/
def validateSubqueries : List WithSubquerySQL → Except String Unit
  | [] => .ok ()
  | sq :: rest =>
    if sq.name = "" || sq.aliasName = "" || sq.query = "" ||
        sq.joinType = "" || sq.joinOn = "" then
      .error "Invalid subquery configuration: missing required fields"
    else if sq.joinType ≠ "JOIN" && sq.joinType ≠ "LEFT JOIN" then
      .error ("Invalid join type: " ++ sq.joinType)
    else validateSubqueries rest

/-- The `validateInputs`: fail-fast precondition checks in source order. -/
def validateInputs (query : SQLQuery)
    (options : Option (BuildComplexSQLParams α)) : Except String Unit :=
  if !truthyS query.sourceQuery && !truthyS query.sourceTable then
    .error "sourceTable is required and must be a string"
  else if !truthyS query.sourceTable && !truthyS query.sourceQuery then
    .error "sourceQuery is required and must be a string"
  else if query.aliasName = "" then
    .error "alias is required and must be a string"
  else if query.fields.length = 0 then
    .error "fields must contain at least one field definition"
  else if (match options with
           | some o => match o.page with
             | some p => decide (p < 0)
             | none => false
           | none => false) then
    .error "page must be a positive number"
  else if (match options with
           | some o => match o.page_size with
             | some s => decide (s ≤ 0)
             | none => false
           | none => false) then
    .error "page_size must be a positive number"
  else
    match query.withSubqueries with
    | some l => validateSubqueries l
    | none => .ok ()

/-- Case-insensitive character comparison (for the `/(ASC|DESC)/gi` scan). -/
def lowerEq (a b : Char) : Bool :=
  a.toLower = b.toLower

/-- The replacement callback on an `ASC`-shaped (case-insensitive) match:
only the exact-case `ASC` flips to `DESC`. -/
def flipA (c1 c2 c3 : Char) : List Char :=
  if c1 = 'A' && c2 = 'S' && c3 = 'C' then ['D', 'E', 'S', 'C']
  else [c1, c2, c3]

/-- The replacement callback on a `DESC`-shaped (case-insensitive) match:
only the exact-case `DESC` flips to `ASC`. -/
def flipD (c1 c2 c3 c4 : Char) : List Char :=
  if c1 = 'D' && c2 = 'E' && c3 = 'S' && c4 = 'C' then ['A', 'S', 'C']
  else [c1, c2, c3, c4]

/-- The `orderByCondition.replace(/(ASC|DESC)/gi, ...)`: left-to-right,
non-overlapping scan preferring the `ASC` alternative. -/
def flipAscDesc : List Char → List Char
  | c1 :: c2 :: c3 :: c4 :: rest =>
    if lowerEq c1 'a' && lowerEq c2 's' && lowerEq c3 'c' then
      flipA c1 c2 c3 ++ flipAscDesc (c4 :: rest)
    else if lowerEq c1 'd' && lowerEq c2 'e' && lowerEq c3 's' &&
        lowerEq c4 'c' then
      flipD c1 c2 c3 c4 ++ flipAscDesc rest
    else
      c1 :: flipAscDesc (c2 :: c3 :: c4 :: rest)
  | [c1, c2, c3] =>
    if lowerEq c1 'a' && lowerEq c2 's' && lowerEq c3 'c' then flipA c1 c2 c3
    else c1 :: flipAscDesc [c2, c3]
  | l => l
termination_by l => l.length

/-- The `$`-macro pass
`finalQuery.replace(/\$([a-zA-Z_][a-zA-Z0-9_]*)/g, ...)`: `$order_by`
becomes the joined order-term list, `$rev_order_by` its ASC/DESC-flipped
form (both throw when the joined list is missing or empty), and every other
`$identifier` is deleted.  Replacements are not rescanned. -/
def dollarSubst (obC : Option String) :
    List Char → Except String (List Char)
  | [] => .ok []
  | '$' :: r :: rs =>
    if isIdentStart r then
      let tokS := String.mk (r :: rs.takeWhile isIdentChar)
      let remaining := rs.dropWhile isIdentChar
      if tokS = "order_by" then
        match obC with
        | some ob =>
          if ob = "" then .error "Missing order_by"
          else
            match dollarSubst obC remaining with
            | .error e => .error e
            | .ok t => .ok (ob.data ++ t)
        | none => .error "Missing order_by"
      else if tokS = "rev_order_by" then
        match obC with
        | some ob =>
          if ob = "" then .error "Missing order_by"
          else
            match dollarSubst obC remaining with
            | .error e => .error e
            | .ok t => .ok (flipAscDesc ob.data ++ t)
        | none => .error "Missing order_by"
      else dollarSubst obC remaining
    else
      match dollarSubst obC (r :: rs) with
      | .error e => .error e
      | .ok t => .ok ('$' :: t)
  | ['$'] => .ok ['$']
  | c :: rest =>
    match dollarSubst obC rest with
    | .error e => .error e
    | .ok t => .ok (c :: t)
termination_by cs => cs.length
decreasing_by
  all_goals
    first
      | exact Nat.lt_succ_of_le (Nat.le_succ_of_le ((List.dropWhile_sublist (l := rs) (p := isIdentChar)).length_le))
      | (simp only [List.length_cons]; omega)

/-- The placeholder pass
`finalQuery.replace(/\?([a-zA-Z_][a-zA-Z0-9_]*)/g, ...)`: each `?identifier`
is looked up in the named-parameter object (`identifier in params`, which in
the association-list model is exactly a successful `jsLookup`); a missing
name throws, a present one appends its value to the output list (once per
occurrence) and is replaced by a bare `?`. -/
def questionSubst (m : List (String × α)) :
    List Char → Except String (List Char × List α)
  | [] => .ok ([], [])
  | '?' :: r :: rs =>
    if isIdentStart r then
      let tokS := String.mk (r :: rs.takeWhile isIdentChar)
      let remaining := rs.dropWhile isIdentChar
      match jsLookup m tokS with
      | none => .error ("Missing parameter: " ++ tokS)
      | some v =>
        match questionSubst m remaining with
        | .error e => .error e
        | .ok (t, vs) => .ok ('?' :: t, v :: vs)
    else
      match questionSubst m (r :: rs) with
      | .error e => .error e
      | .ok (t, vs) => .ok ('?' :: t, vs)
  | ['?'] => .ok (['?'], [])
  | c :: rest =>
    match questionSubst m rest with
    | .error e => .error e
    | .ok (t, vs) => .ok (c :: t, vs)
termination_by cs => cs.length
decreasing_by
  all_goals
    first
      | exact Nat.lt_succ_of_le (Nat.le_succ_of_le ((List.dropWhile_sublist (l := rs) (p := isIdentChar)).length_le))
      | (simp only [List.length_cons]; omega)

/-- The left-to-right list of `?identifier` token names of a text
(specification-side mirror of the placeholder pass's match sequence). -/
def qTokens : List Char → List String
  | [] => []
  | '?' :: r :: rs =>
    if isIdentStart r then
      String.mk (r :: rs.takeWhile isIdentChar) ::
        qTokens (rs.dropWhile isIdentChar)
    else qTokens (r :: rs)
  | ['?'] => []
  | _ :: rest => qTokens rest
termination_by cs => cs.length
decreasing_by
  all_goals
    first
      | exact Nat.lt_succ_of_le (Nat.le_succ_of_le ((List.dropWhile_sublist (l := rs) (p := isIdentChar)).length_le))
      | (simp only [List.length_cons]; omega)

/-- The `options?.order_by?.join(", ")`. -/
def orderByCondition (options : Option (BuildComplexSQLParams α)) :
    Option String :=
  (options.bind (fun o => o.order_by)).map (fun l => joinSep ", " l)

/-- The ORDER BY fragment (empty order-term lists yield no clause). -/
def orderByClauseOf (options : Option (BuildComplexSQLParams α)) : String :=
  match options.bind (fun o => o.order_by) with
  | some l => if l.length ≠ 0 then "ORDER BY " ++ joinSep ", " l else ""
  | none => ""

/-- The LIMIT fragment (`options?.page_size ? ... : ""`; the number `0` is
JS-falsy, though validation rejects it earlier). -/
def limitClauseOf (options : Option (BuildComplexSQLParams α)) : String :=
  match options.bind (fun o => o.page_size) with
  | some s => if s = 0 then "" else "LIMIT " ++ toString s
  | none => ""

/-- The OFFSET fragment (emitted whenever both page and page_size are
present numbers). -/
def offsetClauseOf (options : Option (BuildComplexSQLParams α)) : String :=
  match options.bind (fun o => o.page), options.bind (fun o => o.page_size)
    with
  | some p, some s => "OFFSET " ++ toString (p * s)
  | _, _ => ""

/-- The WHERE fragment: entered when either filter is truthy; the query's
own filter is pushed when truthy, the options filter when truthy with
truthy trim. -/
def whereClauseOf (query : SQLQuery)
    (options : Option (BuildComplexSQLParams α)) : String :=
  if truthyS query.whereCond ||
      truthyS (options.bind (fun o => o.whereCond)) then
    "WHERE " ++ joinSep " AND "
      ((match query.whereCond with
        | some w => if w ≠ "" then ["(" ++ w ++ ")"] else []
        | none => []) ++
       (match options.bind (fun o => o.whereCond) with
        | some w => if w ≠ "" && jsTrim w ≠ "" then ["(" ++ w ++ ")"] else []
        | none => []))
  else ""

/-- The FROM fragment (table source sanitized, raw subquery source verbatim). -/
def fromClauseOf (query : SQLQuery) : Except String String :=
  if truthyS query.sourceTable then
    .ok ("FROM " ++ sanitizeIdentifier (query.sourceTable.getD "") ++
      " AS " ++ sanitizeIdentifier query.aliasName)
  else if truthyS query.sourceQuery then
    .ok ("FROM (" ++ query.sourceQuery.getD "" ++ ") AS " ++
      sanitizeIdentifier query.aliasName)
  else .error "Either sourceTable or sourceQuery must be provided"

/-- The WITH fragment of the pipeline (`query.withSubqueries ? ... : ""`;
a present-but-empty list is truthy in JS and yields `buildWithClause []`,
which is also `""`). -/
def withClauseOf (query : SQLQuery) : String :=
  match query.withSubqueries with
  | some l => buildWithClause l
  | none => ""

/-- The JOIN fragment of the pipeline (`query.withSubqueries ? ... : ""`). -/
def joinClausesOf (query : SQLQuery) : String :=
  match query.withSubqueries with
  | some l => buildJoinClauses l
  | none => ""

/-- The ordered fragment list of the final query, before empty fragments
are dropped. -/
def fragmentsOf (query : SQLQuery)
    (options : Option (BuildComplexSQLParams α)) (fromClause : String) :
    List String :=
  [withClauseOf query, buildSelectClause query options, fromClause,
    joinClausesOf query, whereClauseOf query options,
    orderByClauseOf options, limitClauseOf options, offsetClauseOf options]

/-- The assembly stage of `buildComplexSQL`: validation, the clause
builders, and the space-joined concatenation of the non-empty fragments —
the value of `finalQuery` before parameter substitution. -/
def assembleQuery (query : SQLQuery)
    (options : Option (BuildComplexSQLParams α)) : Except String String :=
  match validateInputs query options with
  | .error e => .error e
  | .ok _ =>
    match fromClauseOf query with
    | .error e => .error e
    | .ok fromClause =>
      .ok (joinSep " "
        ((fragmentsOf query options fromClause).filter (fun s => s ≠ "")))

/-- The `buildComplexSQL`: assemble the text, then — only when a
named-parameter object is supplied — run the `$`-macro pass followed by the
`?`-placeholder pass; otherwise return the assembled text verbatim with an
empty parameter list. -/
def buildComplexSQL (query : SQLQuery)
    (options : Option (BuildComplexSQLParams α)) :
    Except String (BuildResult α) :=
  match assembleQuery query options with
  | .error e => .error e
  | .ok finalQuery =>
    match options.bind (fun o => o.params) with
    | some m =>
      match dollarSubst (orderByCondition options) finalQuery.data with
      | .error e => .error e
      | .ok afterMacros =>
        match questionSubst m afterMacros with
        | .error e => .error e
        | .ok (chars, vals) => .ok ⟨String.mk chars, vals⟩
    | none => .ok ⟨finalQuery, []⟩

/-- One result row as seen by `paginateData`: an arbitrary payload plus the
two synthetic window-count fields, each either a number or absent. -/
structure PageRow (α : Type) where
  payload : α
  sqlUtilRemaining : Option Int
  sqlUtilNum : Option Int

/-- The `pagination` record of a `Paginated` value. -/
structure PaginationInfo where
  page : Int
  limit : Int
  total : Int
  has_more : Bool
deriving Repr, DecidableEq

/-- The `Paginated<T>` return shape of `paginateData`. -/
structure Paginated (ρ : Type) where
  data : List ρ
  pagination : PaginationInfo

/-- The `paginateData`: empty input yields an empty page; otherwise the first
row must carry both window-count numbers (else throw);
`total = first.remaining + first.num` and
`has_more = last.remaining > 0` (an absent last-row field compares false). -/
def paginateData (data : List (PageRow α)) (pageOpt limitOpt : Option Int) :
    Except String (Paginated (PageRow α)) :=
  let page := pageOpt.getD 0
  let limit := limitOpt.getD 10
  match data with
  | [] => .ok ⟨[], ⟨page, limit, 0, false⟩⟩
  | first :: rest =>
    match first.sqlUtilRemaining, first.sqlUtilNum with
    | some rem0, some num0 =>
      .ok ⟨first :: rest, ⟨page, limit, rem0 + num0,
        match (rest.getLastD first).sqlUtilRemaining with
        | some remL => decide (0 < remL)
        | none => false⟩⟩
    | _, _ =>
      .error "order_by, page, and page_size are required for pagination"

/-- Decidable substring containment over character lists. -/
def containsList (pat : List Char) : List Char → Bool
  | [] => decide (pat = [])
  | c :: rest => pat.isPrefixOf (c :: rest) || containsList pat rest

/-- Decidable substring containment over strings. -/
def strContains (hay pat : String) : Bool :=
  containsList pat.data hay.data

/-! ### General helper lemmas -/

/-- Some character fails `isIdentChar` at the head of `b` (the default `' '`
covers the empty case), so an identifier token cannot continue into `b`. -/
def tailSafe (b : List Char) : Bool :=
  !(isIdentChar (b.headD ' '))

/-- Map over the success of an `Except`-valued text result. -/
def okMap (f : List Char → List Char) :
    Except String (List Char) → Except String (List Char)
  | .error e => .error e
  | .ok t => .ok (f t)

/-- Sequential composition of two scanner results: first error wins,
successes concatenate. -/
def catSubst (x y : Except String (List Char)) :
    Except String (List Char) :=
  match x, y with
  | .error e, _ => .error e
  | .ok _, .error e => .error e
  | .ok ta, .ok tb => .ok (ta ++ tb)

/-- Map over the success of the placeholder pass. -/
def okMap2 (f : List Char → List Char) (g : List α → List α) :
    Except String (List Char × List α) → Except String (List Char × List α)
  | .error e => .error e
  | .ok (t, vs) => .ok (f t, g vs)

/-- Sequential composition of two placeholder-pass results. -/
def catSubst2 (x y : Except String (List Char × List α)) :
    Except String (List Char × List α) :=
  match x, y with
  | .error e, _ => .error e
  | .ok _, .error e => .error e
  | .ok (ta, va), .ok (tb, vb) => .ok (ta ++ tb, va ++ vb)

/-- Ordered lookup of a list of token names: `none` exactly when some name
is missing from the map; otherwise one value per occurrence, in order. -/
def lookupAll (m : List (String × α)) : List String → Option (List α)
  | [] => some []
  | t :: ts =>
    match jsLookup m t with
    | none => none
    | some v =>
      match lookupAll m ts with
      | none => none
      | some vs => some (v :: vs)

/-- Precondition (a): at least one source is a truthy string. -/
def sourceOk (q : SQLQuery) : Bool :=
  truthyS q.sourceTable || truthyS q.sourceQuery

/-- Precondition (b): the alias is nonempty. -/
def aliasOk (q : SQLQuery) : Bool :=
  q.aliasName ≠ ""

/-- Precondition (c): at least one projected field. -/
def fieldsOk (q : SQLQuery) : Bool :=
  q.fields.length ≠ 0

/-- Precondition (d): the page index, when provided, is nonnegative. -/
def pageOk (o : Option (BuildComplexSQLParams α)) : Bool :=
  match o with
  | some op =>
    match op.page with
    | some p => decide (0 ≤ p)
    | none => true
  | none => true

/-- Precondition (e): the page size, when provided, is positive. -/
def pageSizeOk (o : Option (BuildComplexSQLParams α)) : Bool :=
  match o with
  | some op =>
    match op.page_size with
    | some s => decide (0 < s)
    | none => true
  | none => true

/-- Precondition (f), per subquery: completeness and a valid join kind. -/
def subOkB (sq : WithSubquerySQL) : Bool :=
  (!(sq.name = "" ∨ sq.aliasName = "" ∨ sq.query = "" ∨ sq.joinType = "" ∨
      sq.joinOn = "" : Bool)) &&
    (sq.joinType = "JOIN" ∨ sq.joinType = "LEFT JOIN" : Bool)

/-- Precondition (f) over the whole subquery list. -/
def subsOk (q : SQLQuery) : Bool :=
  (q.withSubqueries.getD []).all subOkB

/-- The projection list the specification describes for a SELECT clause
with no window columns: exactly the main-query fields followed by the
subquery fields. -/
def selectFieldsSpec (q : SQLQuery) : List String :=
  mainFieldExprs q ++ subqueryFieldExprs q

/-- Concrete query for the C5 witness. -/
def c5Query : SQLQuery :=
  ⟨some "users", none, "u", [("id", "u.id")], none, none⟩

/-- Concrete options for the C5 witness: two order terms plus page and
page_size. -/
def c5Options : BuildComplexSQLParams Int :=
  ⟨none, none, some 0, some 10, some ["a ASC", "b DESC"]⟩

/-- Concrete rows for the C6 witness. -/
def c6RowA : PageRow Unit := ⟨(), some 5, some 3⟩

/-- Second concrete row for the C6 witness. -/
def c6RowB : PageRow Unit := ⟨(), some 0, some 4⟩

/-- Concrete query with a missing alias for the C7 witness. -/
def c7Query : SQLQuery :=
  ⟨some "users", none, "", [("id", "u.id")], none, none⟩

/-- Shared transitive dependency view for the C1 counterexample. -/
def depViewV : SQLQueryView := .mk "V" "qv" []

/-- Dependency A of the C1 counterexample, depending on `depViewV`. -/
def depViewA : SQLQueryView := .mk "A" "qa" [("v", depViewV)]

/-- Dependency B of the C1 counterexample, also depending on `depViewV`. -/
def depViewB : SQLQueryView := .mk "B" "qb" [("v", depViewV)]

/-- A single component declaring two dependencies that share the
transitive dependency `V`. -/
def c1Component : WithSubquerySQL :=
  ⟨"c", "ca", "qc", "JOIN", "x = y", [],
    some [("a", depViewA), ("b", depViewB)]⟩

/-- Concrete query for the C2 counterexample: its own filter contains the
`$order_by` macro. -/
def c2Query : SQLQuery :=
  ⟨some "users", none, "u", [("id", "u.id")], some "$order_by", none⟩

/-- Concrete options for the C2 counterexample: order terms supplied, but
no named-parameter map. -/
def c2Options : BuildComplexSQLParams Int :=
  ⟨none, none, none, none, some ["a ASC"]⟩

/-- Concrete query for the C9 witness: filter text with a `?p` placeholder
and a non-macro `$foo` token. -/
def c9Query : SQLQuery :=
  ⟨some "t", none, "a", [("x", "a.x")], some "?p and $foo", none⟩

/-- Concrete options for the C9 witness: no named-parameter map. -/
def c9Options : BuildComplexSQLParams Int :=
  ⟨none, none, none, none, none⟩

/-- The empty named-parameter map of the C3 counterexample (an empty
object is still JS-truthy, so the rewrite passes run). -/
def c3Params : List (String × Int) := []

/-- Concrete query for the C3 counterexample: its filter holds both a
macro with no order terms and a missing placeholder. -/
def c3Query : SQLQuery :=
  ⟨some "users", none, "u", [("id", "u.id")], some "$order_by ?x", none⟩

/-- Concrete options for the C3 counterexample. -/
def c3Options : BuildComplexSQLParams Int :=
  ⟨none, some c3Params, none, none, none⟩

/-- Concrete query for the C8 witness. -/
def c8Query : SQLQuery :=
  ⟨some "users", none, "u", [("id", "u.id")], none, none⟩

/-- Concrete options for the C8 witness: page 2, page size 10. -/
def c8Options : BuildComplexSQLParams Int :=
  ⟨none, none, some 2, some 10, none⟩

/-- Concrete query for the C10 witness. -/
def c10Query : SQLQuery :=
  ⟨some "users", none, "u", [("id", "u.id")], none, none⟩

/-- Concrete options for the C10 witness: a whitespace-only filter. -/
def c10Options : BuildComplexSQLParams Int :=
  ⟨some "   ", none, none, none, none⟩

/-- Dropping a prefix never lengthens a list (termination helper for the
token scanners). -/
theorem length_dropWhile_le (p : Char → Bool) (l : List Char) :
    (l.dropWhile p).length ≤ l.length :=
  (List.dropWhile_sublist (l := l) (p := p)).length_le

/-- Appending strings appends their character lists. -/
theorem string_mk_append (a b : List Char) :
    String.mk (a ++ b) = String.mk a ++ String.mk b := rfl

/-- The `String.mk` is inverse to `String.data`. -/
theorem string_mk_data (s : String) : String.mk s.data = s := by
  cases s
  rfl

/-- String concatenation is associative. -/
theorem str_assoc (a b c : String) : a ++ b ++ c = a ++ (b ++ c) := by
  cases a with
  | mk la =>
    cases b with
    | mk lb =>
      cases c with
      | mk lc =>
        show String.mk (la ++ lb ++ lc) = String.mk (la ++ (lb ++ lc))
        rw [List.append_assoc]

/-- A string starting with `SELECT` is nonempty. -/
theorem select_ne_empty (y : String) : ("SELECT " ++ y) ≠ "" := by
  intro h
  have hd := congrArg String.data h
  simp only [String.data_append] at hd
  exact absurd hd (by cases y; simp [String.data])

/-- The `joinSep` across an append whose left part is nonempty. -/
theorem joinSep_append_cons (s x : String) (l1 l2 : List String)
    (h : l1 ≠ []) :
    joinSep s (l1 ++ x :: l2) = joinSep s l1 ++ s ++ joinSep s (x :: l2) := by
  induction l1 with
  | nil => exact absurd rfl h
  | cons a as ih =>
    cases as with
    | nil => simp [joinSep]
    | cons b bs =>
      have hih := ih (by simp)
      simp only [List.cons_append, List.append_eq, joinSep] at hih ⊢
      rw [hih]
      simp only [str_assoc]

/-- An identifier-start character is an identifier character. -/
theorem identStart_isIdentChar {c : Char} (h : isIdentStart c = true) :
    isIdentChar c = true := by
  simp only [isIdentStart, isIdentChar, Char.isAlphanum, Bool.or_eq_true,
    decide_eq_true_eq] at h ⊢
  rcases h with h | h
  · exact Or.inl (Or.inl h)
  · exact Or.inr h

/-- A `tailSafe` head is not an identifier start. -/
theorem tailSafe_not_identStart {r : Char} {rs : List Char}
    (h : tailSafe (r :: rs) = true) : isIdentStart r = false := by
  simp only [tailSafe, List.headD_cons, Bool.not_eq_true'] at h
  cases hr : isIdentStart r with
  | false => rfl
  | true => exact absurd (identStart_isIdentChar hr) (by simp [h])

/-- The `takeWhile isIdentChar` and `dropWhile isIdentChar` do not cross a
`tailSafe` boundary. -/
theorem takeWhile_ident_append (a b : List Char) (hb : tailSafe b = true) :
    (a ++ b).takeWhile isIdentChar = a.takeWhile isIdentChar ∧
    (a ++ b).dropWhile isIdentChar = a.dropWhile isIdentChar ++ b := by
  induction a with
  | nil =>
    cases b with
    | nil => simp
    | cons c cs =>
      simp only [tailSafe, List.headD_cons, Bool.not_eq_true'] at hb
      simp [List.takeWhile_cons, List.dropWhile_cons, hb]
  | cons x xs ih =>
    cases hx : isIdentChar x with
    | true => simp [List.takeWhile_cons, List.dropWhile_cons, hx, ih.1, ih.2]
    | false => simp [List.takeWhile_cons, List.dropWhile_cons, hx]

/-- The macro pass leaves `$`-free text unchanged. -/
theorem dollarSubst_no_dollar (obC : Option String) (a : List Char)
    (ha : '$' ∉ a) : dollarSubst obC a = .ok a := by
  induction a with
  | nil => simp [dollarSubst]
  | cons c cs ih =>
    have hc : ¬ (c = '$') := fun h => ha (h ▸ List.mem_cons_self c cs)
    have hcs : '$' ∉ cs := fun h => ha (List.mem_cons_of_mem _ h)
    simp [dollarSubst, hc, ih hcs]

/-- The placeholder pass leaves `?`-free text unchanged and emits no values. -/
theorem questionSubst_no_q (m : List (String × α)) (a : List Char)
    (ha : '?' ∉ a) : questionSubst m a = .ok (a, []) := by
  induction a with
  | nil => simp [questionSubst]
  | cons c cs ih =>
    have hc : ¬ (c = '?') := fun h => ha (h ▸ List.mem_cons_self c cs)
    have hcs : '?' ∉ cs := fun h => ha (List.mem_cons_of_mem _ h)
    simp [questionSubst, hc, ih hcs]

/-- The `?`-free text has no placeholder tokens. -/
theorem qTokens_no_q (a : List Char) (ha : '?' ∉ a) : qTokens a = [] := by
  induction a with
  | nil => simp [qTokens]
  | cons c cs ih =>
    have hc : ¬ (c = '?') := fun h => ha (h ▸ List.mem_cons_self c cs)
    have hcs : '?' ∉ cs := fun h => ha (List.mem_cons_of_mem _ h)
    simp [qTokens, hc, ih hcs]

/-! ### Step and split lemmas for the macro pass -/

/-- Prepending a fixed prefix commutes with sequential composition. -/
theorem okMap_append_cat (u : List Char)
    (x y : Except String (List Char)) :
    okMap (fun t => u ++ t) (catSubst x y) =
      catSubst (okMap (fun t => u ++ t) x) y := by
  cases x <;> cases y <;> simp [okMap, catSubst, List.append_assoc]

/-- Prepending a single character commutes with sequential composition. -/
theorem okMap_cons_cat (c : Char) (x y : Except String (List Char)) :
    okMap (fun t => c :: t) (catSubst x y) =
      catSubst (okMap (fun t => c :: t) x) y := by
  cases x <;> cases y <;> simp [okMap, catSubst]

/-- The `dollarSubst` on the empty text. -/
theorem dollarSubst_nil (obC : Option String) :
    dollarSubst obC [] = .ok [] := by
  simp [dollarSubst]

/-- The `dollarSubst` step on a non-`$` character. -/
theorem dollarSubst_cons_ne (obC : Option String) (c : Char)
    (cs : List Char) (hc : ¬ (c = '$')) :
    dollarSubst obC (c :: cs) =
      okMap (fun t => c :: t) (dollarSubst obC cs) := by
  cases h : dollarSubst obC cs <;> simp [dollarSubst, hc, h, okMap]

/-- The `dollarSubst` on a trailing `$`. -/
theorem dollarSubst_dollar_nil (obC : Option String) :
    dollarSubst obC ['$'] = .ok ['$'] := by
  simp [dollarSubst]

/-- The `dollarSubst` step on `$` not followed by an identifier start. -/
theorem dollarSubst_dollar_ni (obC : Option String) (r : Char)
    (rs : List Char) (hr : isIdentStart r = false) :
    dollarSubst obC ('$' :: r :: rs) =
      okMap (fun t => '$' :: t) (dollarSubst obC (r :: rs)) := by
  cases h : dollarSubst obC (r :: rs) <;> simp [dollarSubst, hr, h, okMap]

/-- The `dollarSubst` step on a `$identifier` token. -/
theorem dollarSubst_dollar_tok (obC : Option String) (r : Char)
    (rs : List Char) (hr : isIdentStart r = true) :
    dollarSubst obC ('$' :: r :: rs) =
      (if String.mk (r :: rs.takeWhile isIdentChar) = "order_by" then
        match obC with
        | some ob =>
          if ob = "" then .error "Missing order_by"
          else okMap (fun t => ob.data ++ t)
            (dollarSubst obC (rs.dropWhile isIdentChar))
        | none => .error "Missing order_by"
      else if String.mk (r :: rs.takeWhile isIdentChar) = "rev_order_by" then
        match obC with
        | some ob =>
          if ob = "" then .error "Missing order_by"
          else okMap (fun t => flipAscDesc ob.data ++ t)
            (dollarSubst obC (rs.dropWhile isIdentChar))
        | none => .error "Missing order_by"
      else dollarSubst obC (rs.dropWhile isIdentChar)) := by
  by_cases h1 : String.mk (r :: rs.takeWhile isIdentChar) = "order_by"
  · cases obC with
    | none => simp [dollarSubst, hr, h1]
    | some ob =>
      by_cases h2 : ob = ""
      · simp [dollarSubst, hr, h1, h2]
      · cases h3 : dollarSubst (some ob) (rs.dropWhile isIdentChar) <;>
          simp [dollarSubst, hr, h1, h2, h3, okMap]
  · by_cases h2 : String.mk (r :: rs.takeWhile isIdentChar) = "rev_order_by"
    · cases obC with
      | none => simp [dollarSubst, hr, h1, h2]
      | some ob =>
        by_cases h3 : ob = ""
        · simp [dollarSubst, hr, h1, h2, h3]
        · cases h4 : dollarSubst (some ob) (rs.dropWhile isIdentChar) <;>
            simp [dollarSubst, hr, h1, h2, h3, h4, okMap]
    · cases h3 : dollarSubst obC (rs.dropWhile isIdentChar) <;>
        simp [dollarSubst, hr, h1, h2, h3]

/-- The macro pass distributes over an append at a `tailSafe` boundary. -/
theorem dollarSubst_split (obC : Option String) (a b : List Char)
    (hb : tailSafe b = true) :
    dollarSubst obC (a ++ b) =
      catSubst (dollarSubst obC a) (dollarSubst obC b) := by
  suffices H : ∀ (n : Nat) (a : List Char), a.length ≤ n →
      dollarSubst obC (a ++ b) =
        catSubst (dollarSubst obC a) (dollarSubst obC b) from
    H a.length a le_rfl
  intro n
  induction n with
  | zero =>
    intro a ha
    have haz : a = [] := List.length_eq_zero.mp (Nat.le_zero.mp ha)
    subst haz
    rw [List.nil_append, dollarSubst_nil]
    cases dollarSubst obC b <;> rfl
  | succ n ih =>
    intro a ha
    cases a with
    | nil =>
      rw [List.nil_append, dollarSubst_nil]
      cases dollarSubst obC b <;> rfl
    | cons c a2 =>
      simp only [List.cons_append]
      by_cases hc : c = '$'
      · subst hc
        cases a2 with
        | nil =>
          simp only [List.nil_append]
          cases b with
          | nil =>
            rw [dollarSubst_nil, dollarSubst_dollar_nil]
            simp [catSubst]
          | cons r rs =>
            have hr : isIdentStart r = false := tailSafe_not_identStart hb
            rw [dollarSubst_dollar_ni obC r rs hr, dollarSubst_dollar_nil]
            cases dollarSubst obC (r :: rs) <;> simp [catSubst, okMap]
        | cons r rs =>
          simp only [List.cons_append]
          by_cases hr : isIdentStart r = true
          · have htw := (takeWhile_ident_append rs b hb).1
            have hdw := (takeWhile_ident_append rs b hb).2
            rw [dollarSubst_dollar_tok obC r (rs ++ b) hr,
              dollarSubst_dollar_tok obC r rs hr, htw, hdw]
            have hlen : (rs.dropWhile isIdentChar).length ≤ n := by
              have h1 := length_dropWhile_le isIdentChar rs
              simp only [List.length_cons] at ha
              omega
            rw [ih (rs.dropWhile isIdentChar) hlen]
            by_cases h1 : String.mk (r :: rs.takeWhile isIdentChar) =
                "order_by"
            · simp only [if_pos h1]
              cases obC with
              | some ob =>
                by_cases hob : ob = ""
                · simp [hob, catSubst]
                · simp only [if_neg hob, okMap_append_cat]
              | none => simp [catSubst]
            · by_cases h2 : String.mk (r :: rs.takeWhile isIdentChar) =
                  "rev_order_by"
              · simp only [if_neg h1, if_pos h2]
                cases obC with
                | some ob =>
                  by_cases hob : ob = ""
                  · simp [hob, catSubst]
                  · simp only [if_neg hob, okMap_append_cat]
                | none => simp [catSubst]
              · simp only [if_neg h1, if_neg h2]
          · have hr2 : isIdentStart r = false := by
              cases h2 : isIdentStart r with
              | false => rfl
              | true => exact absurd h2 hr
            rw [dollarSubst_dollar_ni obC r (rs ++ b) hr2,
              dollarSubst_dollar_ni obC r rs hr2]
            have hlen : (r :: rs).length ≤ n := by
              simp only [List.length_cons] at ha ⊢
              omega
            have hih := ih (r :: rs) hlen
            simp only [List.cons_append] at hih
            rw [hih, okMap_cons_cat]
      · rw [dollarSubst_cons_ne obC c (a2 ++ b) hc,
          dollarSubst_cons_ne obC c a2 hc]
        have hlen : a2.length ≤ n := by
          simp only [List.length_cons] at ha
          omega
        rw [ih a2 hlen, okMap_cons_cat]

/-! ### Step and split lemmas for the placeholder pass -/

/-- Prepending a character (and optionally a value) commutes with
sequential composition of placeholder-pass results. -/
theorem okMap2_cons_cat2 (c : Char) (g : List α → List α)
    (hg : ∀ u v, g (u ++ v) = g u ++ v)
    (x y : Except String (List Char × List α)) :
    okMap2 (fun t => c :: t) g (catSubst2 x y) =
      catSubst2 (okMap2 (fun t => c :: t) g x) y := by
  cases x with
  | error e => rfl
  | ok p =>
    cases y with
    | error e => cases p with | mk ta va => rfl
    | ok q =>
      cases p with
      | mk ta va =>
        cases q with
        | mk tb vb => simp [okMap2, catSubst2, hg]

/-- The `questionSubst` on the empty text. -/
theorem questionSubst_nil (m : List (String × α)) :
    questionSubst m [] = .ok ([], []) := by
  simp [questionSubst]

/-- The `questionSubst` step on a non-`?` character. -/
theorem questionSubst_cons_ne (m : List (String × α)) (c : Char)
    (cs : List Char) (hc : ¬ (c = '?')) :
    questionSubst m (c :: cs) =
      okMap2 (fun t => c :: t) (fun vs => vs) (questionSubst m cs) := by
  cases h : questionSubst m cs with
  | error e => simp [questionSubst, hc, h, okMap2]
  | ok p => cases p with | mk t vs => simp [questionSubst, hc, h, okMap2]

/-- The `questionSubst` on a trailing `?`. -/
theorem questionSubst_q_nil (m : List (String × α)) :
    questionSubst m ['?'] = .ok (['?'], []) := by
  simp [questionSubst]

/-- The `questionSubst` step on `?` not followed by an identifier start. -/
theorem questionSubst_q_ni (m : List (String × α)) (r : Char)
    (rs : List Char) (hr : isIdentStart r = false) :
    questionSubst m ('?' :: r :: rs) =
      okMap2 (fun t => '?' :: t) (fun vs => vs)
        (questionSubst m (r :: rs)) := by
  cases h : questionSubst m (r :: rs) with
  | error e => simp [questionSubst, hr, h, okMap2]
  | ok p => cases p with | mk t vs => simp [questionSubst, hr, h, okMap2]

/-- The `questionSubst` step on a `?identifier` token. -/
theorem questionSubst_q_tok (m : List (String × α)) (r : Char)
    (rs : List Char) (hr : isIdentStart r = true) :
    questionSubst m ('?' :: r :: rs) =
      (match jsLookup m (String.mk (r :: rs.takeWhile isIdentChar)) with
      | none => .error ("Missing parameter: " ++
          String.mk (r :: rs.takeWhile isIdentChar))
      | some v => okMap2 (fun t => '?' :: t) (fun vs => v :: vs)
          (questionSubst m (rs.dropWhile isIdentChar))) := by
  cases hl : jsLookup m (String.mk (r :: rs.takeWhile isIdentChar)) with
  | none => simp [questionSubst, hr, hl]
  | some v =>
    cases h : questionSubst m (rs.dropWhile isIdentChar) with
    | error e => simp [questionSubst, hr, hl, h, okMap2]
    | ok p => cases p with | mk t vs => simp [questionSubst, hr, hl, h, okMap2]

/-- The placeholder pass distributes over an append at a `tailSafe`
boundary: texts and emitted value lists both concatenate. -/
theorem questionSubst_split (m : List (String × α)) (a b : List Char)
    (hb : tailSafe b = true) :
    questionSubst m (a ++ b) =
      catSubst2 (questionSubst m a) (questionSubst m b) := by
  suffices H : ∀ (n : Nat) (a : List Char), a.length ≤ n →
      questionSubst m (a ++ b) =
        catSubst2 (questionSubst m a) (questionSubst m b) from
    H a.length a le_rfl
  intro n
  induction n with
  | zero =>
    intro a ha
    have haz : a = [] := List.length_eq_zero.mp (Nat.le_zero.mp ha)
    subst haz
    rw [List.nil_append, questionSubst_nil]
    cases h : questionSubst m b with
    | error e => rfl
    | ok p => cases p with | mk tb vb => rfl
  | succ n ih =>
    intro a ha
    cases a with
    | nil =>
      rw [List.nil_append, questionSubst_nil]
      cases h : questionSubst m b with
      | error e => rfl
      | ok p => cases p with | mk tb vb => rfl
    | cons c a2 =>
      simp only [List.cons_append]
      by_cases hc : c = '?'
      · subst hc
        cases a2 with
        | nil =>
          simp only [List.nil_append]
          cases b with
          | nil =>
            rw [questionSubst_nil, questionSubst_q_nil]
            simp [catSubst2]
          | cons r rs =>
            have hr : isIdentStart r = false := tailSafe_not_identStart hb
            rw [questionSubst_q_ni m r rs hr, questionSubst_q_nil]
            cases h : questionSubst m (r :: rs) with
            | error e => rfl
            | ok p => cases p with | mk t vs => simp [catSubst2, okMap2]
        | cons r rs =>
          simp only [List.cons_append]
          by_cases hr : isIdentStart r = true
          · have htw := (takeWhile_ident_append rs b hb).1
            have hdw := (takeWhile_ident_append rs b hb).2
            rw [questionSubst_q_tok m r (rs ++ b) hr,
              questionSubst_q_tok m r rs hr, htw, hdw]
            have hlen : (rs.dropWhile isIdentChar).length ≤ n := by
              have h1 := length_dropWhile_le isIdentChar rs
              simp only [List.length_cons] at ha
              omega
            rw [ih (rs.dropWhile isIdentChar) hlen]
            cases hl : jsLookup m (String.mk (r :: rs.takeWhile isIdentChar))
              with
            | none => rfl
            | some v =>
              exact okMap2_cons_cat2 '?' (fun vs => v :: vs)
                (fun u w => rfl) _ _
          · have hr2 : isIdentStart r = false := by
              cases h2 : isIdentStart r with
              | false => rfl
              | true => exact absurd h2 hr
            rw [questionSubst_q_ni m r (rs ++ b) hr2,
              questionSubst_q_ni m r rs hr2]
            have hlen : (r :: rs).length ≤ n := by
              simp only [List.length_cons] at ha ⊢
              omega
            have hih := ih (r :: rs) hlen
            simp only [List.cons_append] at hih
            rw [hih]
            exact okMap2_cons_cat2 '?' (fun vs => vs) (fun u w => rfl) _ _
      · rw [questionSubst_cons_ne m c (a2 ++ b) hc,
          questionSubst_cons_ne m c a2 hc]
        have hlen : a2.length ≤ n := by
          simp only [List.length_cons] at ha
          omega
        rw [ih a2 hlen]
        exact okMap2_cons_cat2 c (fun vs => vs) (fun u w => rfl) _ _

/-! ### Step and split lemmas for the token lister -/

/-- The `qTokens` step on a non-`?` character. -/
theorem qTokens_cons_ne (c : Char) (cs : List Char) (hc : ¬ (c = '?')) :
    qTokens (c :: cs) = qTokens cs := by
  simp [qTokens, hc]

/-- The `qTokens` step on `?` not followed by an identifier start. -/
theorem qTokens_q_ni (r : Char) (rs : List Char)
    (hr : isIdentStart r = false) :
    qTokens ('?' :: r :: rs) = qTokens (r :: rs) := by
  simp [qTokens, hr]

/-- The `qTokens` step on a `?identifier` token. -/
theorem qTokens_q_tok (r : Char) (rs : List Char)
    (hr : isIdentStart r = true) :
    qTokens ('?' :: r :: rs) =
      String.mk (r :: rs.takeWhile isIdentChar) ::
        qTokens (rs.dropWhile isIdentChar) := by
  simp [qTokens, hr]

/-- The token lister distributes over an append at a `tailSafe` boundary. -/
theorem qTokens_split (a b : List Char) (hb : tailSafe b = true) :
    qTokens (a ++ b) = qTokens a ++ qTokens b := by
  suffices H : ∀ (n : Nat) (a : List Char), a.length ≤ n →
      qTokens (a ++ b) = qTokens a ++ qTokens b from
    H a.length a le_rfl
  intro n
  induction n with
  | zero =>
    intro a ha
    have haz : a = [] := List.length_eq_zero.mp (Nat.le_zero.mp ha)
    subst haz
    simp [qTokens]
  | succ n ih =>
    intro a ha
    cases a with
    | nil => simp [qTokens]
    | cons c a2 =>
      simp only [List.cons_append]
      by_cases hc : c = '?'
      · subst hc
        cases a2 with
        | nil =>
          simp only [List.nil_append]
          cases b with
          | nil => simp [qTokens]
          | cons r rs =>
            have hr : isIdentStart r = false := tailSafe_not_identStart hb
            rw [qTokens_q_ni r rs hr]
            simp [qTokens]
        | cons r rs =>
          simp only [List.cons_append]
          by_cases hr : isIdentStart r = true
          · have htw := (takeWhile_ident_append rs b hb).1
            have hdw := (takeWhile_ident_append rs b hb).2
            rw [qTokens_q_tok r (rs ++ b) hr, qTokens_q_tok r rs hr, htw,
              hdw]
            have hlen : (rs.dropWhile isIdentChar).length ≤ n := by
              have h1 := length_dropWhile_le isIdentChar rs
              simp only [List.length_cons] at ha
              omega
            rw [ih (rs.dropWhile isIdentChar) hlen]
            rfl
          · have hr2 : isIdentStart r = false := by
              cases h2 : isIdentStart r with
              | false => rfl
              | true => exact absurd h2 hr
            rw [qTokens_q_ni r (rs ++ b) hr2, qTokens_q_ni r rs hr2]
            have hlen : (r :: rs).length ≤ n := by
              simp only [List.length_cons] at ha ⊢
              omega
            have hih := ih (r :: rs) hlen
            simp only [List.cons_append] at hih
            exact hih
      · rw [qTokens_cons_ne c (a2 ++ b) hc, qTokens_cons_ne c a2 hc]
        have hlen : a2.length ≤ n := by
          simp only [List.length_cons] at ha
          omega
        exact ih a2 hlen

/-! ### Characterizations of the placeholder pass -/

/-- A successful placeholder pass emits exactly the looked-up value of each
`?` token of the text, one entry per occurrence, in left-to-right order. -/
theorem questionSubst_ok_vals (m : List (String × α)) (cs : List Char)
    (t : List Char) (vs : List α)
    (h : questionSubst m cs = .ok (t, vs)) :
    lookupAll m (qTokens cs) = some vs := by
  suffices H : ∀ (n : Nat) (cs : List Char), cs.length ≤ n →
      ∀ t vs, questionSubst m cs = .ok (t, vs) →
      lookupAll m (qTokens cs) = some vs from H cs.length cs le_rfl t vs h
  intro n
  induction n with
  | zero =>
    intro cs hcs t vs h
    have hz : cs = [] := List.length_eq_zero.mp (Nat.le_zero.mp hcs)
    subst hz
    rw [questionSubst_nil] at h
    cases h
    simp [qTokens, lookupAll]
  | succ n ih =>
    intro cs hcs t vs h
    cases cs with
    | nil =>
      rw [questionSubst_nil] at h
      cases h
      simp [qTokens, lookupAll]
    | cons c cs2 =>
      by_cases hc : c = '?'
      · subst hc
        cases cs2 with
        | nil =>
          rw [questionSubst_q_nil] at h
          cases h
          simp [qTokens, lookupAll]
        | cons r rs =>
          by_cases hr : isIdentStart r = true
          · rw [questionSubst_q_tok m r rs hr] at h
            rw [qTokens_q_tok r rs hr]
            cases hl : jsLookup m (String.mk (r :: rs.takeWhile isIdentChar))
              with
            | none => rw [hl] at h; exact absurd h (by simp)
            | some v =>
              rw [hl] at h
              cases hq : questionSubst m (rs.dropWhile isIdentChar) with
              | error e => rw [hq] at h; exact absurd h (by simp [okMap2])
              | ok p =>
                cases p with
                | mk t2 vs2 =>
                  rw [hq] at h
                  simp only [okMap2, Except.ok.injEq, Prod.mk.injEq] at h
                  have hlen : (rs.dropWhile isIdentChar).length ≤ n := by
                    have h1 := length_dropWhile_le isIdentChar rs
                    simp only [List.length_cons] at hcs
                    omega
                  have hrec := ih (rs.dropWhile isIdentChar) hlen t2 vs2 hq
                  simp only [lookupAll, hl, hrec]
                  rw [← h.2]
          · have hr2 : isIdentStart r = false := by
              cases h2 : isIdentStart r with
              | false => rfl
              | true => exact absurd h2 hr
            rw [questionSubst_q_ni m r rs hr2] at h
            rw [qTokens_q_ni r rs hr2]
            cases hq : questionSubst m (r :: rs) with
            | error e => rw [hq] at h; exact absurd h (by simp [okMap2])
            | ok p =>
              cases p with
              | mk t2 vs2 =>
                rw [hq] at h
                simp only [okMap2, Except.ok.injEq, Prod.mk.injEq] at h
                have hlen : (r :: rs).length ≤ n := by
                  simp only [List.length_cons] at hcs ⊢
                  omega
                have hrec := ih (r :: rs) hlen t2 vs2 hq
                rw [hrec, ← h.2]
      · rw [questionSubst_cons_ne m c cs2 hc] at h
        rw [qTokens_cons_ne c cs2 hc]
        cases hq : questionSubst m cs2 with
        | error e => rw [hq] at h; exact absurd h (by simp [okMap2])
        | ok p =>
          cases p with
          | mk t2 vs2 =>
            rw [hq] at h
            simp only [okMap2, Except.ok.injEq, Prod.mk.injEq] at h
            have hlen : cs2.length ≤ n := by
              simp only [List.length_cons] at hcs
              omega
            have hrec := ih cs2 hlen t2 vs2 hq
            rw [hrec, ← h.2]

/-- When some `?` token of the text is missing from the map, the
placeholder pass fails naming the leftmost missing token. -/
theorem questionSubst_first_missing (m : List (String × α)) (cs : List Char)
    (t : String)
    (h : (qTokens cs).find? (fun t0 => (jsLookup m t0).isNone) = some t) :
    questionSubst m cs = .error ("Missing parameter: " ++ t) := by
  suffices H : ∀ (n : Nat) (cs : List Char), cs.length ≤ n →
      ∀ t, (qTokens cs).find? (fun t0 => (jsLookup m t0).isNone) = some t →
      questionSubst m cs = .error ("Missing parameter: " ++ t) from
    H cs.length cs le_rfl t h
  intro n
  induction n with
  | zero =>
    intro cs hcs t h
    have hz : cs = [] := List.length_eq_zero.mp (Nat.le_zero.mp hcs)
    subst hz
    simp [qTokens] at h
  | succ n ih =>
    intro cs hcs t h
    cases cs with
    | nil => simp [qTokens] at h
    | cons c cs2 =>
      by_cases hc : c = '?'
      · subst hc
        cases cs2 with
        | nil => simp [qTokens] at h
        | cons r rs =>
          by_cases hr : isIdentStart r = true
          · rw [qTokens_q_tok r rs hr] at h
            rw [questionSubst_q_tok m r rs hr]
            cases hl : jsLookup m (String.mk (r :: rs.takeWhile isIdentChar))
              with
            | none =>
              rw [List.find?_cons_of_pos _ (by simp [hl])] at h
              cases h
              rfl
            | some v =>
              rw [List.find?_cons_of_neg _ (by simp [hl])] at h
              have hlen : (rs.dropWhile isIdentChar).length ≤ n := by
                have h1 := length_dropWhile_le isIdentChar rs
                simp only [List.length_cons] at hcs
                omega
              rw [ih (rs.dropWhile isIdentChar) hlen t h]
              rfl
          · have hr2 : isIdentStart r = false := by
              cases h2 : isIdentStart r with
              | false => rfl
              | true => exact absurd h2 hr
            rw [qTokens_q_ni r rs hr2] at h
            rw [questionSubst_q_ni m r rs hr2]
            have hlen : (r :: rs).length ≤ n := by
              simp only [List.length_cons] at hcs ⊢
              omega
            rw [ih (r :: rs) hlen t h]
            rfl
      · rw [qTokens_cons_ne c cs2 hc] at h
        rw [questionSubst_cons_ne m c cs2 hc]
        have hlen : cs2.length ≤ n := by
          simp only [List.length_cons] at hcs
          omega
        rw [ih cs2 hlen t h]
        rfl

/-! ### Validator characterization -/

/-- The per-subquery loop succeeds exactly when every subquery passes. -/
theorem validateSubqueries_ok_iff (l : List WithSubquerySQL) :
    validateSubqueries l = .ok () ↔ l.all subOkB = true := by
  induction l with
  | nil => simp [validateSubqueries]
  | cons sq rest ih =>
    by_cases hm : sq.name = "" ∨ sq.aliasName = "" ∨ sq.query = "" ∨
        sq.joinType = "" ∨ sq.joinOn = ""
    · constructor
      · intro h
        exfalso
        rcases hm with h1 | h1 | h1 | h1 | h1 <;>
          simp [validateSubqueries, h1] at h
      · intro h
        exfalso
        simp only [List.all_cons, Bool.and_eq_true] at h
        have hsq := h.1
        simp only [subOkB, Bool.and_eq_true, Bool.not_eq_true'] at hsq
        rcases hm with h1 | h1 | h1 | h1 | h1 <;> simp [h1] at hsq
    · push_neg at hm
      obtain ⟨hn, ha, hq, hjt, hjo⟩ := hm
      by_cases hj : sq.joinType = "JOIN" ∨ sq.joinType = "LEFT JOIN"
      · have hv : validateSubqueries (sq :: rest) = validateSubqueries rest := by
          have hj2 : ¬ (sq.joinType ≠ "JOIN" ∧ sq.joinType ≠ "LEFT JOIN") := by
            tauto
          simp [validateSubqueries, hn, ha, hq, hjt, hjo, hj2]
        rw [hv, ih]
        simp only [List.all_cons, Bool.and_eq_true]
        constructor
        · intro h
          refine ⟨?_, h⟩
          rcases hj with hj | hj <;>
            simp [subOkB, hn, ha, hq, hjt, hjo, hj]
        · intro h
          exact h.2
      · have hj1 : sq.joinType ≠ "JOIN" ∧ sq.joinType ≠ "LEFT JOIN" := by
          tauto
        have hv : validateSubqueries (sq :: rest) =
            .error ("Invalid join type: " ++ sq.joinType) := by
          simp [validateSubqueries, hn, ha, hq, hjt, hjo, hj1]
        rw [hv]
        constructor
        · intro h
          exact absurd h (by simp)
        · intro h
          exfalso
          simp only [List.all_cons, Bool.and_eq_true] at h
          have h2 := h.1
          simp only [subOkB, Bool.and_eq_true] at h2
          have h3 := h2.2
          simp only [decide_eq_true_eq] at h3
          exact hj h3

/-- The first guard of `validateInputs` is the negation of source presence. -/
theorem validate_cond1 (q : SQLQuery) :
    (!truthyS q.sourceQuery && !truthyS q.sourceTable) = !(sourceOk q) := by
  cases hst : truthyS q.sourceTable <;> cases hsq : truthyS q.sourceQuery <;>
    simp [sourceOk, hst, hsq]

/-- The second guard of `validateInputs` is also the negation of source
presence (it can never fire after the first). -/
theorem validate_cond2 (q : SQLQuery) :
    (!truthyS q.sourceTable && !truthyS q.sourceQuery) = !(sourceOk q) := by
  cases hst : truthyS q.sourceTable <;> cases hsq : truthyS q.sourceQuery <;>
    simp [sourceOk, hst, hsq]

/-- The `validateInputs` under passing source/alias/fields/page checks reduces
to the subquery loop. -/
theorem validateInputs_reduce (q : SQLQuery)
    (o : Option (BuildComplexSQLParams α))
    (hso : sourceOk q = true) (hal : aliasOk q = true)
    (hfo : fieldsOk q = true) (hpg : pageOk o = true)
    (hps : pageSizeOk o = true) :
    validateInputs q o = validateSubqueries (q.withSubqueries.getD []) := by
  have h1 : (!truthyS q.sourceQuery && !truthyS q.sourceTable) = false := by
    rw [validate_cond1, hso]
    rfl
  have h2 : (!truthyS q.sourceTable && !truthyS q.sourceQuery) = false := by
    rw [validate_cond2, hso]
    rfl
  have h3 : ¬ (q.aliasName = "") := by
    simpa [aliasOk] using hal
  have h4 : ¬ (q.fields.length = 0) := by
    simpa [fieldsOk] using hfo
  cases o with
  | none =>
    simp only [validateInputs, h1, h2, Bool.false_eq_true, if_false,
      if_neg h3, if_neg h4]
    cases q.withSubqueries <;> rfl
  | some op =>
    cases hp : op.page with
    | none =>
      cases hsz : op.page_size with
      | none =>
        simp only [validateInputs, h1, h2, Bool.false_eq_true, if_false,
          if_neg h3, if_neg h4, hp, hsz]
        cases q.withSubqueries <;> rfl
      | some s =>
        simp only [pageSizeOk, hsz, decide_eq_true_eq] at hps
        have hns : ¬ (s ≤ 0) := by omega
        simp only [validateInputs, h1, h2, Bool.false_eq_true, if_false,
          if_neg h3, if_neg h4, hp, hsz, decide_eq_false hns]
        cases q.withSubqueries <;> rfl
    | some p =>
      simp only [pageOk, hp, decide_eq_true_eq] at hpg
      have hnp : ¬ (p < 0) := by omega
      cases hsz : op.page_size with
      | none =>
        simp only [validateInputs, h1, h2, Bool.false_eq_true, if_false,
          if_neg h3, if_neg h4, hp, hsz, decide_eq_false hnp]
        cases q.withSubqueries <;> rfl
      | some s =>
        simp only [pageSizeOk, hsz, decide_eq_true_eq] at hps
        have hns : ¬ (s ≤ 0) := by omega
        simp only [validateInputs, h1, h2, Bool.false_eq_true, if_false,
          if_neg h3, if_neg h4, hp, hsz, decide_eq_false hnp,
          decide_eq_false hns]
        cases q.withSubqueries <;> rfl

/-- Failing source presence yields the first error message. -/
theorem validateInputs_err_source (q : SQLQuery)
    (o : Option (BuildComplexSQLParams α)) (h : sourceOk q = false) :
    validateInputs q o =
      .error "sourceTable is required and must be a string" := by
  have h1 : (!truthyS q.sourceQuery && !truthyS q.sourceTable) = true := by
    rw [validate_cond1, h]
    rfl
  simp [validateInputs, h1]

/-- With the source present, a missing alias yields the alias error. -/
theorem validateInputs_err_alias (q : SQLQuery)
    (o : Option (BuildComplexSQLParams α)) (hso : sourceOk q = true)
    (hal : aliasOk q = false) :
    validateInputs q o =
      .error "alias is required and must be a string" := by
  have h1 : (!truthyS q.sourceQuery && !truthyS q.sourceTable) = false := by
    rw [validate_cond1, hso]
    rfl
  have h2 : (!truthyS q.sourceTable && !truthyS q.sourceQuery) = false := by
    rw [validate_cond2, hso]
    rfl
  have h3 : q.aliasName = "" := by
    simpa [aliasOk] using hal
  simp [validateInputs, h1, h2, h3]

/-- With source and alias present, an empty field map yields the fields
error. -/
theorem validateInputs_err_fields (q : SQLQuery)
    (o : Option (BuildComplexSQLParams α)) (hso : sourceOk q = true)
    (hal : aliasOk q = true) (hfo : fieldsOk q = false) :
    validateInputs q o =
      .error "fields must contain at least one field definition" := by
  have h1 : (!truthyS q.sourceQuery && !truthyS q.sourceTable) = false := by
    rw [validate_cond1, hso]
    rfl
  have h2 : (!truthyS q.sourceTable && !truthyS q.sourceQuery) = false := by
    rw [validate_cond2, hso]
    rfl
  have h3 : ¬ (q.aliasName = "") := by
    simpa [aliasOk] using hal
  have h4 : q.fields.length = 0 := by
    simpa [fieldsOk] using hfo
  simp [validateInputs, h1, h2, h3, h4]

/-- With checks (a)–(c) passing, a negative page yields the page error. -/
theorem validateInputs_err_page (q : SQLQuery)
    (o : Option (BuildComplexSQLParams α)) (hso : sourceOk q = true)
    (hal : aliasOk q = true) (hfo : fieldsOk q = true)
    (hpg : pageOk o = false) :
    validateInputs q o = .error "page must be a positive number" := by
  have h1 : (!truthyS q.sourceQuery && !truthyS q.sourceTable) = false := by
    rw [validate_cond1, hso]
    rfl
  have h2 : (!truthyS q.sourceTable && !truthyS q.sourceQuery) = false := by
    rw [validate_cond2, hso]
    rfl
  have h3 : ¬ (q.aliasName = "") := by
    simpa [aliasOk] using hal
  have h4 : ¬ (q.fields.length = 0) := by
    simpa [fieldsOk] using hfo
  cases o with
  | none => simp [pageOk] at hpg
  | some op =>
    cases hp : op.page with
    | none => simp [pageOk, hp] at hpg
    | some p =>
      simp only [pageOk, hp, decide_eq_false_iff_not] at hpg
      have hplt : p < 0 := by omega
      simp [validateInputs, h1, h2, h3, h4, hp, hplt]

/-- With checks (a)–(d) passing, a nonpositive page size yields the
page-size error. -/
theorem validateInputs_err_pageSize (q : SQLQuery)
    (o : Option (BuildComplexSQLParams α)) (hso : sourceOk q = true)
    (hal : aliasOk q = true) (hfo : fieldsOk q = true)
    (hpg : pageOk o = true) (hps : pageSizeOk o = false) :
    validateInputs q o = .error "page_size must be a positive number" := by
  have h1 : (!truthyS q.sourceQuery && !truthyS q.sourceTable) = false := by
    rw [validate_cond1, hso]
    rfl
  have h2 : (!truthyS q.sourceTable && !truthyS q.sourceQuery) = false := by
    rw [validate_cond2, hso]
    rfl
  have h3 : ¬ (q.aliasName = "") := by
    simpa [aliasOk] using hal
  have h4 : ¬ (q.fields.length = 0) := by
    simpa [fieldsOk] using hfo
  cases o with
  | none => simp [pageSizeOk] at hps
  | some op =>
    cases hsz : op.page_size with
    | none => simp [pageSizeOk, hsz] at hps
    | some s =>
      simp only [pageSizeOk, hsz, decide_eq_false_iff_not] at hps
      have hsle : s ≤ 0 := by omega
      cases hp : op.page with
      | none => simp [validateInputs, h1, h2, h3, h4, hp, hsz, hsle]
      | some p =>
        simp only [pageOk, hp, decide_eq_true_eq] at hpg
        have hnp : ¬ (p < 0) := by omega
        simp [validateInputs, h1, h2, h3, h4, hp, hsz, hsle,
          decide_eq_false hnp]

/-- The `validateInputs` succeeds exactly when all six precondition groups
hold. -/
theorem validateInputs_ok_iff (q : SQLQuery)
    (o : Option (BuildComplexSQLParams α)) :
    validateInputs q o = .ok () ↔
      (sourceOk q && aliasOk q && fieldsOk q && pageOk o && pageSizeOk o &&
        subsOk q) = true := by
  constructor
  · intro h
    by_cases hso : sourceOk q = true
    · by_cases hal : aliasOk q = true
      · by_cases hfo : fieldsOk q = true
        · by_cases hpg : pageOk o = true
          · by_cases hps : pageSizeOk o = true
            · rw [validateInputs_reduce q o hso hal hfo hpg hps] at h
              have hsub : subsOk q = true := by
                have := (validateSubqueries_ok_iff _).mp h
                simpa [subsOk] using this
              simp [hso, hal, hfo, hpg, hps, hsub]
            · have : pageSizeOk o = false := by
                revert hps
                cases pageSizeOk o <;> simp
              rw [validateInputs_err_pageSize q o hso hal hfo hpg this] at h
              cases h
          · have : pageOk o = false := by
              revert hpg
              cases pageOk o <;> simp
            rw [validateInputs_err_page q o hso hal hfo this] at h
            cases h
        · have : fieldsOk q = false := by
            revert hfo
            cases fieldsOk q <;> simp
          rw [validateInputs_err_fields q o hso hal this] at h
          cases h
      · have : aliasOk q = false := by
          revert hal
          cases aliasOk q <;> simp
        rw [validateInputs_err_alias q o hso this] at h
        cases h
    · have : sourceOk q = false := by
        revert hso
        cases sourceOk q <;> simp
      rw [validateInputs_err_source q o this] at h
      cases h
  · intro h
    simp only [Bool.and_eq_true] at h
    obtain ⟨⟨⟨⟨⟨hso, hal⟩, hfo⟩, hpg⟩, hps⟩, hsub⟩ := h
    rw [validateInputs_reduce q o hso hal hfo hpg hps]
    refine (validateSubqueries_ok_iff _).mpr ?_
    simpa [subsOk] using hsub

/-! ### Decimal renderings contain no substitution triggers -/

/-- The `Nat.digitChar` never produces a substitution trigger character. -/
theorem digitChar_safe (n : Nat) :
    Nat.digitChar n ≠ '$' ∧ Nat.digitChar n ≠ '?' := by
  rcases Nat.lt_or_ge n 16 with h | h
  · interval_cases n <;> exact ⟨by decide, by decide⟩
  · have hh : Nat.digitChar n = '*' := by
      unfold Nat.digitChar
      repeat rw [if_neg (by omega)]
    rw [hh]
    exact ⟨by decide, by decide⟩

/-- Characters of `Nat.toDigitsCore` are digit characters or come from the
accumulator. -/
theorem toDigitsCore_safe (b : Nat) :
    ∀ (f n : Nat) (acc : List Char) (c : Char),
      (∀ x ∈ acc, x ≠ '$' ∧ x ≠ '?') →
      c ∈ Nat.toDigitsCore b f n acc → c ≠ '$' ∧ c ≠ '?' := by
  intro f
  induction f with
  | zero =>
    intro n acc c hacc hc
    simp only [Nat.toDigitsCore] at hc
    exact hacc c hc
  | succ f ih =>
    intro n acc c hacc hc
    simp only [Nat.toDigitsCore] at hc
    by_cases hnb : n / b = 0
    · rw [if_pos hnb] at hc
      rcases List.mem_cons.mp hc with h | h
      · rw [h]
        exact digitChar_safe (n % b)
      · exact hacc c h
    · rw [if_neg hnb] at hc
      refine ih (n / b) (Nat.digitChar (n % b) :: acc) c ?_ hc
      intro x hx
      rcases List.mem_cons.mp hx with h | h
      · rw [h]
        exact digitChar_safe (n % b)
      · exact hacc x h

/-- The decimal rendering of a nonnegative integer contains neither `$`
nor `?`. -/
theorem int_toString_safe (s : Int) (hs : 0 ≤ s) :
    '$' ∉ (toString s).data ∧ '?' ∉ (toString s).data := by
  obtain ⟨m, rfl⟩ := Int.eq_ofNat_of_zero_le hs
  have hrepr : (toString (m : Int)).data = Nat.toDigits 10 m := rfl
  rw [hrepr]
  constructor
  · intro hc
    exact (toDigitsCore_safe 10 (m + 1) m [] '$' (by simp) hc).1 rfl
  · intro hc
    exact (toDigitsCore_safe 10 (m + 1) m [] '?' (by simp) hc).2 rfl

/-- Trimming an all-whitespace string yields the empty string. -/
theorem jsTrim_all_ws (w : String)
    (h : ∀ c ∈ w.data, c.isWhitespace = true) : jsTrim w = "" := by
  unfold jsTrim
  have h1 : w.data.dropWhile Char.isWhitespace = [] := by
    rw [List.dropWhile_eq_nil_iff]
    exact fun c hc => h c hc
  rw [h1]
  rfl

/-- The SELECT fragment is never empty. -/
theorem buildSelectClause_ne (q : SQLQuery)
    (o : Option (BuildComplexSQLParams α)) :
    buildSelectClause q o ≠ "" := by
  unfold buildSelectClause
  exact select_ne_empty _

/-! ### Pipeline plumbing lemmas -/

/-- With validation and FROM succeeding, assembly returns the joined
non-empty fragments. -/
theorem assembleQuery_eq_ok (q : SQLQuery)
    (o : Option (BuildComplexSQLParams α))
    (hv : validateInputs q o = .ok ()) (fc : String)
    (hfc : fromClauseOf q = .ok fc) :
    assembleQuery q o =
      .ok (joinSep " "
        ((fragmentsOf q o fc).filter (fun s => s ≠ ""))) := by
  simp [assembleQuery, hv, hfc]

/-- A truthy source always gives a FROM fragment. -/
theorem fromClauseOf_ok (q : SQLQuery) (hso : sourceOk q = true) :
    ∃ fc, fromClauseOf q = .ok fc := by
  cases hst : truthyS q.sourceTable with
  | true =>
    refine ⟨"FROM " ++ sanitizeIdentifier (q.sourceTable.getD "") ++
      " AS " ++ sanitizeIdentifier q.aliasName, ?_⟩
    simp [fromClauseOf, hst]
  | false =>
    have hsq : truthyS q.sourceQuery = true := by
      simpa [sourceOk, hst] using hso
    refine ⟨"FROM (" ++ q.sourceQuery.getD "" ++ ") AS " ++
      sanitizeIdentifier q.aliasName, ?_⟩
    simp [fromClauseOf, hst, hsq]

/-- Without a named-parameter object, the rewrite stage is skipped. -/
theorem buildComplexSQL_no_params (q : SQLQuery)
    (o : Option (BuildComplexSQLParams α))
    (hop : o.bind (fun x => x.params) = none) :
    buildComplexSQL q o =
      match assembleQuery q o with
      | .error e => .error e
      | .ok t => .ok ⟨t, []⟩ := by
  cases h : assembleQuery q o with
  | error e => simp [buildComplexSQL, h, hop]
  | ok t => simp [buildComplexSQL, h, hop]

/-- With a named-parameter object, the rewrite stage runs both passes on
the assembled text. -/
theorem buildComplexSQL_params (q : SQLQuery)
    (o : Option (BuildComplexSQLParams α)) (m : List (String × α))
    (hop : o.bind (fun x => x.params) = some m) (txt : String)
    (ht : assembleQuery q o = .ok txt) :
    buildComplexSQL q o =
      (match dollarSubst (orderByCondition o) txt.data with
      | .error e => .error e
      | .ok d =>
        match questionSubst m d with
        | .error e => .error e
        | .ok (chars, vals) => .ok ⟨String.mk chars, vals⟩) := by
  simp [buildComplexSQL, ht, hop]

/-- An assembly failure propagates through `buildComplexSQL`. -/
theorem buildComplexSQL_err_assemble (q : SQLQuery)
    (o : Option (BuildComplexSQLParams α)) (e : String)
    (h : assembleQuery q o = .error e) :
    buildComplexSQL q o = .error e := by
  unfold buildComplexSQL
  rw [h]

/-- A macro-pass failure propagates through `buildComplexSQL`. -/
theorem buildComplexSQL_err_dollar (q : SQLQuery)
    (o : Option (BuildComplexSQLParams α)) (m : List (String × α))
    (hop : o.bind (fun x => x.params) = some m) (txt : String)
    (ht : assembleQuery q o = .ok txt) (e : String)
    (hd : dollarSubst (orderByCondition o) txt.data = .error e) :
    buildComplexSQL q o = .error e := by
  rw [buildComplexSQL_params q o m hop txt ht, hd]

/-- With assembly and the macro pass succeeding, `buildComplexSQL` is the
placeholder pass on the post-macro text. -/
theorem buildComplexSQL_params2 (q : SQLQuery)
    (o : Option (BuildComplexSQLParams α)) (m : List (String × α))
    (hop : o.bind (fun x => x.params) = some m) (txt : String)
    (ht : assembleQuery q o = .ok txt) (d : List Char)
    (hd : dollarSubst (orderByCondition o) txt.data = .ok d) :
    buildComplexSQL q o =
      (match questionSubst m d with
      | .error e => .error e
      | .ok (chars, vals) => .ok ⟨String.mk chars, vals⟩) := by
  rw [buildComplexSQL_params q o m hop txt ht, hd]

/-- A trigger-free, token-breaking suffix of the assembled text survives
both rewrite passes verbatim. -/
theorem subst_suffix (obC : Option String) (m : List (String × α))
    (a b : List Char) (hb : tailSafe b = true) (hd : '$' ∉ b)
    (hq : '?' ∉ b) (d : List Char)
    (hdd : dollarSubst obC (a ++ b) = .ok d)
    (chars : List Char) (vals : List α)
    (hqq : questionSubst m d = .ok (chars, vals)) :
    ∃ pre, chars = pre ++ b := by
  rw [dollarSubst_split obC a b hb, dollarSubst_no_dollar obC b hd] at hdd
  cases ha : dollarSubst obC a with
  | error e =>
    rw [ha] at hdd
    exact absurd hdd (by simp [catSubst])
  | ok ta =>
    rw [ha] at hdd
    have hd2 : d = ta ++ b := by
      simpa [catSubst] using hdd.symm
    subst hd2
    rw [questionSubst_split m ta b hb, questionSubst_no_q m b hq] at hqq
    cases hta : questionSubst m ta with
    | error e =>
      rw [hta] at hqq
      exact absurd hqq (by simp [catSubst2])
    | ok p =>
      cases p with
      | mk ta2 va2 =>
        rw [hta] at hqq
        have h2 : ta2 ++ b = chars ∧ va2 = vals := by
          simpa [catSubst2] using hqq
        exact ⟨ta2, h2.1.symm⟩

/-- Joining the filtered fragments when the last fragment is nonempty and
some earlier fragment is nonempty: the text ends with the last fragment. -/
theorem joinSep_filter_concat (l : List String) (x : String)
    (hx : ¬ (x = "")) (y : String) (hy : y ∈ l) (hyne : ¬ (y = "")) :
    ∃ pre, joinSep " " ((l ++ [x]).filter (fun s => s ≠ "")) =
      pre ++ " " ++ x := by
  have hfil : (l ++ [x]).filter (fun s => s ≠ "") =
      l.filter (fun s => s ≠ "") ++ [x] := by
    simp [List.filter_append, hx]
  have hne : l.filter (fun s => s ≠ "") ≠ [] := by
    intro h0
    have hmem : y ∈ l.filter (fun s => s ≠ "") :=
      List.mem_filter.mpr ⟨hy, by simpa using hyne⟩
    rw [h0] at hmem
    cases hmem
  rw [hfil, joinSep_append_cons " " x (l.filter (fun s => s ≠ "")) [] hne]
  exact ⟨joinSep " " (l.filter (fun s => s ≠ "")), by simp [joinSep]⟩

/-- Joining the filtered fragments around a nonempty middle fragment: the
text contains the middle fragment preceded by a space, followed by either
nothing or a space. -/
theorem joinSep_filter_mid (l1 l2 : List String) (x : String)
    (hx : ¬ (x = "")) (y : String) (hy : y ∈ l1) (hyne : ¬ (y = "")) :
    ∃ pre post, joinSep " " ((l1 ++ x :: l2).filter (fun s => s ≠ "")) =
      pre ++ " " ++ x ++ post ∧
      (post = "" ∨ ∃ post2, post = " " ++ post2) := by
  have hfil : (l1 ++ x :: l2).filter (fun s => s ≠ "") =
      l1.filter (fun s => s ≠ "") ++ x :: l2.filter (fun s => s ≠ "") := by
    simp [List.filter_append, hx]
  have hne : l1.filter (fun s => s ≠ "") ≠ [] := by
    intro h0
    have hmem : y ∈ l1.filter (fun s => s ≠ "") :=
      List.mem_filter.mpr ⟨hy, by simpa using hyne⟩
    rw [h0] at hmem
    cases hmem
  rw [hfil, joinSep_append_cons " " x (l1.filter (fun s => s ≠ ""))
    (l2.filter (fun s => s ≠ "")) hne]
  cases hl2 : l2.filter (fun s => s ≠ "") with
  | nil =>
    refine ⟨joinSep " " (l1.filter (fun s => s ≠ "")), "", ?_, Or.inl rfl⟩
    simp [joinSep]
  | cons z zs =>
    refine ⟨joinSep " " (l1.filter (fun s => s ≠ "")),
      " " ++ joinSep " " (z :: zs), ?_, Or.inr ⟨_, rfl⟩⟩
    simp only [joinSep, str_assoc]

/-- A string with a nonempty prefix is nonempty. -/
theorem str_append_ne (a y : String) (ha : a.data ≠ []) : (a ++ y) ≠ "" := by
  intro h
  have hd := congrArg String.data h
  simp only [String.data_append] at hd
  have : a.data = [] := by
    cases hda : a.data with
    | nil => rfl
    | cons c cs =>
      rw [hda] at hd
      simp [String.data] at hd
  exact ha this

/-- Joining the filtered fragments when the last two fragments are
nonempty: the text ends with both, space-separated. -/
theorem joinSep_filter_concat2 (l : List String) (x z : String)
    (hx : ¬ (x = "")) (hz : ¬ (z = "")) (y : String) (hy : y ∈ l)
    (hyne : ¬ (y = "")) :
    ∃ pre, joinSep " " ((l ++ [x, z]).filter (fun s => s ≠ "")) =
      pre ++ " " ++ x ++ " " ++ z := by
  have hfil : (l ++ [x, z]).filter (fun s => s ≠ "") =
      l.filter (fun s => s ≠ "") ++ x :: [z] := by
    simp [List.filter_append, hx, hz]
  have hne : l.filter (fun s => s ≠ "") ≠ [] := by
    intro h0
    have hmem : y ∈ l.filter (fun s => s ≠ "") :=
      List.mem_filter.mpr ⟨hy, by simpa using hyne⟩
    rw [h0] at hmem
    cases hmem
  rw [hfil, joinSep_append_cons " " x (l.filter (fun s => s ≠ "")) [z] hne]
  refine ⟨joinSep " " (l.filter (fun s => s ≠ "")), ?_⟩
  simp only [joinSep, str_assoc]

/-- The `lookupAll` success aligns lengths. -/
theorem lookupAll_length (m : List (String × α)) (ts : List String)
    (vs : List α) (h : lookupAll m ts = some vs) : vs.length = ts.length := by
  induction ts generalizing vs with
  | nil =>
    simp only [lookupAll, Option.some.injEq] at h
    rw [← h]
    rfl
  | cons t ts ih =>
    simp only [lookupAll] at h
    cases hl : jsLookup m t with
    | none => rw [hl] at h; cases h
    | some v =>
      rw [hl] at h
      cases hrec : lookupAll m ts with
      | none => rw [hrec] at h; cases h
      | some vs2 =>
        rw [hrec] at h
        simp only [Option.some.injEq] at h
        rw [← h]
        simp [ih vs2 hrec]

/-- The `lookupAll` success gives the looked-up value at every position. -/
theorem lookupAll_get (m : List (String × α)) (ts : List String)
    (vs : List α) (h : lookupAll m ts = some vs) :
    ∀ (i : Nat) (h1 : i < ts.length) (h2 : i < vs.length),
      jsLookup m (ts.get ⟨i, h1⟩) = some (vs.get ⟨i, h2⟩) := by
  induction ts generalizing vs with
  | nil => intro i h1; cases (Nat.not_lt_zero i h1)
  | cons t ts ih =>
    intro i h1 h2
    simp only [lookupAll] at h
    cases hl : jsLookup m t with
    | none => rw [hl] at h; cases h
    | some v =>
      rw [hl] at h
      cases hrec : lookupAll m ts with
      | none => rw [hrec] at h; cases h
      | some vs2 =>
        rw [hrec] at h
        simp only [Option.some.injEq] at h
        subst h
        cases i with
        | zero => simpa using hl
        | succ j =>
          have hj1 : j < ts.length := by
            simpa [List.length_cons] using h1
          have hj2 : j < vs2.length := by
            simp only [List.length_cons] at h2
            omega
          simpa using ih vs2 hrec j hj1 hj2

/-- The macro pass passes a `$`-free prefix through unchanged. -/
theorem dollarSubst_append_no_dollar (obC : Option String)
    (a b : List Char) (ha : '$' ∉ a) :
    dollarSubst obC (a ++ b) =
      okMap (fun t => a ++ t) (dollarSubst obC b) := by
  induction a with
  | nil =>
    cases h : dollarSubst obC b with
    | error e => simp [okMap, h]
    | ok t => simp [okMap, h]
  | cons c a2 ih =>
    have hc : ¬ (c = '$') := fun h => ha (h ▸ List.mem_cons_self c a2)
    have ha2 : '$' ∉ a2 := fun h => ha (List.mem_cons_of_mem _ h)
    simp only [List.cons_append]
    rw [dollarSubst_cons_ne obC c (a2 ++ b) hc, ih ha2]
    cases dollarSubst obC b <;> simp [okMap]

/-- The placeholder pass passes a `?`-free prefix through unchanged. -/
theorem questionSubst_append_no_q (m : List (String × α))
    (a b : List Char) (ha : '?' ∉ a) :
    questionSubst m (a ++ b) =
      okMap2 (fun t => a ++ t) (fun vs => vs) (questionSubst m b) := by
  induction a with
  | nil =>
    cases h : questionSubst m b with
    | error e => simp [okMap2, h]
    | ok p => cases p with | mk t vs => simp [okMap2, h]
  | cons c a2 ih =>
    have hc : ¬ (c = '?') := fun h => ha (h ▸ List.mem_cons_self c a2)
    have ha2 : '?' ∉ a2 := fun h => ha (List.mem_cons_of_mem _ h)
    simp only [List.cons_append]
    rw [questionSubst_cons_ne m c (a2 ++ b) hc, ih ha2]
    cases h : questionSubst m b with
    | error e => simp [okMap2]
    | ok p => cases p with | mk t vs => simp [okMap2]

/-- A trigger-free, token-breaking middle segment of the assembled text
survives both rewrite passes verbatim. -/
theorem subst_mid (obC : Option String) (m : List (String × α))
    (a mid b : List Char) (hmidne : mid ≠ [])
    (hmidh : tailSafe mid = true) (hdmid : '$' ∉ mid) (hqmid : '?' ∉ mid)
    (d : List Char) (hdd : dollarSubst obC (a ++ (mid ++ b)) = .ok d)
    (chars : List Char) (vals : List α)
    (hqq : questionSubst m d = .ok (chars, vals)) :
    ∃ pre post, chars = pre ++ mid ++ post := by
  have hmidT : ∀ (c : List Char), tailSafe (mid ++ c) = true := by
    intro c
    cases mid with
    | nil => exact absurd rfl hmidne
    | cons x xs => simpa [tailSafe, List.headD_cons] using hmidh
  rw [dollarSubst_split obC a (mid ++ b) (hmidT b),
    dollarSubst_append_no_dollar obC mid b hdmid] at hdd
  cases ha : dollarSubst obC a with
  | error e =>
    rw [ha] at hdd
    exact absurd hdd (by simp [catSubst])
  | ok ta =>
    rw [ha] at hdd
    cases hbb : dollarSubst obC b with
    | error e =>
      rw [hbb] at hdd
      exact absurd hdd (by simp [catSubst, okMap])
    | ok tb =>
      rw [hbb] at hdd
      have hd2 : d = ta ++ (mid ++ tb) := by
        simpa [catSubst, okMap] using hdd.symm
      subst hd2
      rw [questionSubst_split m ta (mid ++ tb) (hmidT tb),
        questionSubst_append_no_q m mid tb hqmid] at hqq
      cases hta : questionSubst m ta with
      | error e =>
        rw [hta] at hqq
        exact absurd hqq (by simp [catSubst2])
      | ok p =>
        cases p with
        | mk qa va =>
          rw [hta] at hqq
          cases htb : questionSubst m tb with
          | error e =>
            rw [htb] at hqq
            exact absurd hqq (by simp [catSubst2, okMap2])
          | ok p2 =>
            cases p2 with
            | mk qb vb =>
              rw [htb] at hqq
              have h2 : qa ++ (mid ++ qb) = chars ∧ va ++ vb = vals := by
                simpa [catSubst2, okMap2] using hqq
              refine ⟨qa, qb, ?_⟩
              rw [← h2.1, List.append_assoc]

/-! ### Claim theorems -/

/-- Claim C5: the two synthetic window-count columns
(`_sql_util_remaining`, ordered by the reversed ORDER BY term, and
`_sql_util_num`, ordered by the ORDER BY term) are appended to the SELECT
clause if and only if the invocation supplies more than one ordering term
and both page and page_size; otherwise the SELECT clause contains exactly
the main-query fields followed by the subquery fields. -/
theorem C5_selectClause (α : Type) (q : SQLQuery)
    (o : Option (BuildComplexSQLParams α)) :
    ((∃ opts l, o = some opts ∧ opts.order_by = some l ∧ 1 < l.length ∧
        opts.page_size.isSome = true ∧ opts.page.isSome = true) →
      buildSelectClause q o =
        "SELECT " ++
          joinSep ", " (selectFieldsSpec q ++ windowCountCols q)) ∧
    ((¬ ∃ opts l, o = some opts ∧ opts.order_by = some l ∧ 1 < l.length ∧
        opts.page_size.isSome = true ∧ opts.page.isSome = true) →
      buildSelectClause q o =
        "SELECT " ++ joinSep ", " (selectFieldsSpec q)) := by
  constructor
  · rintro ⟨opts, l, rfl, hob, hlen, hps, hpg⟩
    obtain ⟨s, hs⟩ := Option.isSome_iff_exists.mp hps
    obtain ⟨p, hp⟩ := Option.isSome_iff_exists.mp hpg
    simp [buildSelectClause, selectFieldsSpec, hob, hs, hp, hlen]
  · intro hn
    cases o with
    | none => simp [buildSelectClause, selectFieldsSpec]
    | some opts =>
      cases hob : opts.order_by with
      | none =>
        cases hps : opts.page_size <;> cases hpg : opts.page <;>
          simp [buildSelectClause, selectFieldsSpec, hob, hps, hpg]
      | some l =>
        cases hps : opts.page_size with
        | none =>
          cases hpg : opts.page <;>
            simp [buildSelectClause, selectFieldsSpec, hob, hps, hpg]
        | some s =>
          cases hpg : opts.page with
          | none => simp [buildSelectClause, selectFieldsSpec, hob, hps, hpg]
          | some p =>
            have hlen : ¬ (l.length > 1) := by
              intro hl
              exact hn ⟨opts, l, rfl, hob, hl, by simp [hps], by simp [hpg]⟩
            simp [buildSelectClause, selectFieldsSpec, hob, hps, hpg, hlen]

/-- Witness for C5 at a concrete invocation. -/
theorem C5_selectClause_witness :
    buildSelectClause c5Query (some c5Options) =
      "SELECT " ++
        joinSep ", " (selectFieldsSpec c5Query ++ windowCountCols c5Query) :=
  (C5_selectClause Int c5Query (some c5Options)).1
    ⟨c5Options, ["a ASC", "b DESC"], rfl, rfl, by decide, rfl, rfl⟩

/-- Claim C6: for every non-empty row list whose rows carry the two
synthetic window-count fields, paginate returns `total` equal to the first
row's remaining plus the first row's num, and `has_more` equal to (the
last row's remaining > 0); it fails when those fields are absent from the
rows. -/
theorem C6_paginate (α : Type) :
    (∀ (r0 : PageRow α) (rest : List (PageRow α))
      (pageOpt limitOpt : Option Int) (rem0 num0 remL : Int),
      r0.sqlUtilRemaining = some rem0 → r0.sqlUtilNum = some num0 →
      (rest.getLastD r0).sqlUtilRemaining = some remL →
      paginateData (r0 :: rest) pageOpt limitOpt =
        .ok ⟨r0 :: rest,
          ⟨pageOpt.getD 0, limitOpt.getD 10, rem0 + num0,
            decide (0 < remL)⟩⟩) ∧
    (∀ (r0 : PageRow α) (rest : List (PageRow α))
      (pageOpt limitOpt : Option Int),
      (∀ r ∈ r0 :: rest, r.sqlUtilRemaining = none ∧ r.sqlUtilNum = none) →
      paginateData (r0 :: rest) pageOpt limitOpt =
        .error "order_by, page, and page_size are required for pagination")
    := by
  constructor
  · intro r0 rest pageOpt limitOpt rem0 num0 remL h1 h2 h3
    simp only [List.getLastD_eq_getLast?] at h3
    simp [paginateData, h1, h2, h3, List.getLastD_eq_getLast?]
  · intro r0 rest pageOpt limitOpt hall
    have h0 := hall r0 (List.mem_cons_self r0 rest)
    simp [paginateData, h0.1]

/-- Witness for C6 at a concrete row list. -/
theorem C6_paginate_witness :
    paginateData [c6RowA, c6RowB] none none =
      .ok ⟨[c6RowA, c6RowB],
        ⟨(none : Option Int).getD 0, (none : Option Int).getD 10, 5 + 3,
          decide ((0 : Int) < 0)⟩⟩ :=
  (C6_paginate Unit).1 c6RowA [c6RowB] none none 5 3 0 rfl rfl rfl

/-- Claim C7: the validator fails with a `BuildError` identifying the
first violated precondition in the fixed order (a) source presence,
(b) alias presence, (c) at least one field, (d) page ≥ 0 if provided,
(e) page_size > 0 if provided, (f) per-subquery completeness and
join-kind validity; it is fail-fast and returns nothing when all checks
pass. -/
theorem C7_validator (α : Type) (q : SQLQuery)
    (o : Option (BuildComplexSQLParams α)) :
    (validateInputs q o = .ok () ↔
      (sourceOk q && aliasOk q && fieldsOk q && pageOk o && pageSizeOk o &&
        subsOk q) = true) ∧
    (sourceOk q = false →
      validateInputs q o =
        .error "sourceTable is required and must be a string") ∧
    (sourceOk q = true → aliasOk q = false →
      validateInputs q o =
        .error "alias is required and must be a string") ∧
    (sourceOk q = true → aliasOk q = true → fieldsOk q = false →
      validateInputs q o =
        .error "fields must contain at least one field definition") ∧
    (sourceOk q = true → aliasOk q = true → fieldsOk q = true →
      pageOk o = false →
      validateInputs q o = .error "page must be a positive number") ∧
    (sourceOk q = true → aliasOk q = true → fieldsOk q = true →
      pageOk o = true → pageSizeOk o = false →
      validateInputs q o = .error "page_size must be a positive number") ∧
    (sourceOk q = true → aliasOk q = true → fieldsOk q = true →
      pageOk o = true → pageSizeOk o = true →
      validateInputs q o =
        validateSubqueries (q.withSubqueries.getD [])) := by
  refine ⟨validateInputs_ok_iff q o, ?_, ?_, ?_, ?_, ?_, ?_⟩
  · exact validateInputs_err_source q o
  · exact validateInputs_err_alias q o
  · exact validateInputs_err_fields q o
  · exact validateInputs_err_page q o
  · exact validateInputs_err_pageSize q o
  · exact validateInputs_reduce q o

/-- Witness for C7: source present, alias missing, so the alias error is
reported first. -/
theorem C7_validator_witness :
    sourceOk c7Query = true ∧ aliasOk c7Query = false ∧
      validateInputs c7Query (none : Option (BuildComplexSQLParams Int)) =
        .error "alias is required and must be a string" :=
  ⟨by decide, by decide,
    (C7_validator Int c7Query none).2.2.1 (by decide) (by decide)⟩

/-- Counterexample to claim C1 as stated: the WITH clause for a request
whose two declared dependencies share the transitive dependency `V`
contains the CTE `V AS (qv)` twice, so dependency names are *not*
de-duplicated across the whole request. -/
theorem C1_counterexample :
    (withClauseEntries [c1Component]).count "V AS (qv)" = 2 ∧
    buildWithClause [c1Component] =
      "WITH V AS (qv), A AS (qa), V AS (qv), B AS (qb), c AS (qc)" := by
  constructor
  · rfl
  · rfl

/-- Claim C1, amended: dependencies are still expanded depth-first (a
dependency's own dependencies appear before it) and all expanded
dependency CTEs precede the top-level subquery CTEs, but de-duplication
applies only to the merged top-level `dependsOn` keys (first-seen key
position): a view reached through two different dependency entries — in
particular a shared transitive dependency — is emitted once per
occurrence, not at most once. -/
theorem C1_amended (nB qB nA qA kA kB nc1 ac1 qc1 jt1 jo1
    nc2 ac2 qc2 jt2 jo2 : String) (f1 f2 : List (String × String)) :
    (withClauseEntries
        [⟨nc1, ac1, qc1, jt1, jo1, f1,
          some [(kA, .mk nA qA [(kB, .mk nB qB [])])]⟩] =
      [jsTrim nB ++ " AS (" ++ jsTrim qB ++ ")",
       jsTrim nA ++ " AS (" ++ jsTrim qA ++ ")",
       sanitizeIdentifier nc1 ++ " AS (" ++ jsTrim qc1 ++ ")"]) ∧
    (withClauseEntries
        [⟨nc1, ac1, qc1, jt1, jo1, f1, some [(kA, .mk nA qA [])]⟩,
         ⟨nc2, ac2, qc2, jt2, jo2, f2, some [(kA, .mk nA qA [])]⟩] =
      [jsTrim nA ++ " AS (" ++ jsTrim qA ++ ")",
       sanitizeIdentifier nc1 ++ " AS (" ++ jsTrim qc1 ++ ")",
       sanitizeIdentifier nc2 ++ " AS (" ++ jsTrim qc2 ++ ")"]) := by
  constructor
  · simp [withClauseEntries, mergedDeps, spreadMerge, objInsert,
      expandQueryView, expandDeps]
  · simp [withClauseEntries, mergedDeps, spreadMerge, objInsert,
      expandQueryView, expandDeps]

/-- Counterexample to claim C2 as stated: the assembled text contains
`$order_by` and one or more order terms are supplied, yet — because no
named-parameter map is supplied — composition succeeds with the macro
left verbatim in the output instead of replacing it. -/
theorem C2_counterexample :
    c2Options.order_by = some ["a ASC"] ∧ c2Options.params = none ∧
    buildComplexSQL c2Query (some c2Options) =
      .ok ⟨"SELECT u.id AS id FROM users AS u WHERE ($order_by) ORDER BY a ASC",
        []⟩ ∧
    strContains
      "SELECT u.id AS id FROM users AS u WHERE ($order_by) ORDER BY a ASC"
      "$order_by" = true := by
  exact ⟨rfl, rfl, rfl, rfl⟩

/-- Claim C2, amended: *when a named-parameter map is supplied*, every
occurrence of `$order_by` in the assembled text is replaced by the
comma-joined order-term list and every `$rev_order_by` by the ASC/DESC
flipped list (the scan continues into the remaining text, so every
occurrence is handled), and composition fails with a `BuildError` when
the macro is present but no (nonempty) order-term list was supplied;
without a named-parameter map the macro pass does not run at all. -/
theorem C2_amended (terms : List String) (pre post : List Char)
    (hpre : '$' ∉ pre) (hpost : tailSafe post = true) :
    (joinSep ", " terms ≠ "" →
      (dollarSubst (some (joinSep ", " terms))
          (pre ++ ("$order_by".data ++ post)) =
        okMap (fun t => pre ++ ((joinSep ", " terms).data ++ t))
          (dollarSubst (some (joinSep ", " terms)) post) ∧
      dollarSubst (some (joinSep ", " terms))
          (pre ++ ("$rev_order_by".data ++ post)) =
        okMap (fun t => pre ++ (flipAscDesc (joinSep ", " terms).data ++ t))
          (dollarSubst (some (joinSep ", " terms)) post))) ∧
    (joinSep ", " terms = "" →
      dollarSubst (some (joinSep ", " terms))
          (pre ++ ("$order_by".data ++ post)) =
        .error "Missing order_by") ∧
    (dollarSubst none (pre ++ ("$order_by".data ++ post)) =
      .error "Missing order_by") ∧
    flipAscDesc "created_at DESC".data = "created_at ASC".data := by
  have hsplit : "$order_by".data ++ post =
      '$' :: 'o' :: ("rder_by".data ++ post) := rfl
  have hsplit2 : "$rev_order_by".data ++ post =
      '$' :: 'r' :: ("ev_order_by".data ++ post) := rfl
  have htw1 := (takeWhile_ident_append "rder_by".data post hpost).1
  have hdw1 := (takeWhile_ident_append "rder_by".data post hpost).2
  have htw2 := (takeWhile_ident_append "ev_order_by".data post hpost).1
  have hdw2 := (takeWhile_ident_append "ev_order_by".data post hpost).2
  have horder : ∀ obC : Option String,
      dollarSubst obC ("$order_by".data ++ post) =
        (match obC with
        | some ob =>
          if ob = "" then .error "Missing order_by"
          else okMap (fun t => ob.data ++ t) (dollarSubst obC post)
        | none => .error "Missing order_by") := by
    intro obC
    rw [hsplit,
      dollarSubst_dollar_tok obC 'o' ("rder_by".data ++ post) (by decide),
      htw1, hdw1]
    rw [show List.takeWhile isIdentChar "rder_by".data = "rder_by".data
      from rfl]
    rw [show List.dropWhile isIdentChar "rder_by".data = [] from rfl]
    rw [show String.mk ('o' :: "rder_by".data) = "order_by" from rfl]
    simp
  have hrev : ∀ obC : Option String,
      dollarSubst obC ("$rev_order_by".data ++ post) =
        (match obC with
        | some ob =>
          if ob = "" then .error "Missing order_by"
          else okMap (fun t => flipAscDesc ob.data ++ t)
            (dollarSubst obC post)
        | none => .error "Missing order_by") := by
    intro obC
    rw [hsplit2,
      dollarSubst_dollar_tok obC 'r' ("ev_order_by".data ++ post)
        (by decide),
      htw2, hdw2]
    rw [show List.takeWhile isIdentChar "ev_order_by".data =
      "ev_order_by".data from rfl]
    rw [show List.dropWhile isIdentChar "ev_order_by".data = [] from rfl]
    rw [show String.mk ('r' :: "ev_order_by".data) = "rev_order_by"
      from rfl]
    simp
  refine ⟨?_, ?_, ?_, ?_⟩
  · intro hne
    constructor
    · rw [dollarSubst_append_no_dollar _ pre _ hpre, horder]
      simp only [if_neg hne]
      cases dollarSubst (some (joinSep ", " terms)) post <;> simp [okMap]
    · rw [dollarSubst_append_no_dollar _ pre _ hpre, hrev]
      simp only [if_neg hne]
      cases dollarSubst (some (joinSep ", " terms)) post <;> simp [okMap]
  · intro hemp
    rw [dollarSubst_append_no_dollar _ pre _ hpre, horder]
    simp [hemp, okMap]
  · rw [dollarSubst_append_no_dollar _ pre _ hpre, horder]
    simp [okMap]
  · simp [flipAscDesc, lowerEq, flipA, flipD]

/-- Witness for the amended C2 at the round-trip instance of the spec:
`order_by: ["created_at DESC"]` and a text holding `$rev_order_by`. -/
theorem C2_amended_witness :
    dollarSubst (some (joinSep ", " ["created_at DESC"]))
        ([] ++ ("$rev_order_by".data ++ [])) =
      okMap (fun t => [] ++
          (flipAscDesc (joinSep ", " ["created_at DESC"]).data ++ t))
        (dollarSubst (some (joinSep ", " ["created_at DESC"])) []) :=
  ((C2_amended ["created_at DESC"] [] [] (by simp) (by decide)).1
    (by decide)).2

/-- The `takeWhile` keeps a list all of whose elements satisfy the predicate. -/
theorem takeWhile_of_all (p : Char → Bool) (l : List Char)
    (h : ∀ c ∈ l, p c = true) : l.takeWhile p = l := by
  induction l with
  | nil => rfl
  | cons c cs ih =>
    rw [List.takeWhile_cons, if_pos (h c (List.mem_cons_self c cs)),
      ih (fun x hx => h x (List.mem_cons_of_mem _ hx))]

/-- Claim C9: when a named-parameter map is supplied, every `$identifier`
token that is neither `$order_by` nor `$rev_order_by` is replaced by the
empty string (deleted) and contributes nothing to the parameter list (the
macro pass produces text only); when no named-parameter map is supplied,
both passes are skipped: the output text is the assembled text verbatim
and the parameter list is empty. -/
theorem C9_macroPass (α : Type) :
    (∀ (q : SQLQuery) (o : BuildComplexSQLParams α), o.params = none →
      buildComplexSQL q (some o) =
        (match assembleQuery q (some o) with
        | .error e => .error e
        | .ok t => .ok ⟨t, []⟩)) ∧
    (∀ q : SQLQuery,
      buildComplexSQL q (none : Option (BuildComplexSQLParams α)) =
        (match assembleQuery q (none : Option (BuildComplexSQLParams α))
          with
        | .error e => .error e
        | .ok t => .ok ⟨t, []⟩)) ∧
    (∀ (obC : Option String) (pre post : List Char) (r : Char)
      (rs : List Char),
      '$' ∉ pre → tailSafe post = true → isIdentStart r = true →
      (∀ c ∈ rs, isIdentChar c = true) →
      String.mk (r :: rs) ≠ "order_by" →
      String.mk (r :: rs) ≠ "rev_order_by" →
      dollarSubst obC (pre ++ ('$' :: r :: (rs ++ post))) =
        okMap (fun t => pre ++ t) (dollarSubst obC post)) := by
  refine ⟨?_, ?_, ?_⟩
  · intro q o ho
    exact buildComplexSQL_no_params q (some o) (by simp [ho])
  · intro q
    exact buildComplexSQL_no_params q none (by simp)
  · intro obC pre post r rs hpre hpost hr hrs h1 h2
    rw [show pre ++ ('$' :: r :: (rs ++ post)) =
      pre ++ (('$' :: r :: rs) ++ post) from by simp]
    rw [dollarSubst_append_no_dollar obC pre _ hpre]
    rw [show ('$' :: r :: rs) ++ post = '$' :: r :: (rs ++ post) from rfl]
    rw [dollarSubst_dollar_tok obC r (rs ++ post) hr]
    have htw : (rs ++ post).takeWhile isIdentChar = rs := by
      rw [(takeWhile_ident_append rs post hpost).1]
      exact takeWhile_of_all isIdentChar rs hrs
    have hdw : (rs ++ post).dropWhile isIdentChar = post := by
      rw [(takeWhile_ident_append rs post hpost).2]
      rw [show rs.dropWhile isIdentChar = [] from
        (List.dropWhile_eq_nil_iff).mpr (fun c hc => hrs c hc)]
      rfl
    rw [htw, hdw, if_neg h1, if_neg h2]

/-- Witness for C9: without a parameter map the assembled text — tokens
included — is returned verbatim with an empty parameter list. -/
theorem C9_macroPass_witness :
    buildComplexSQL c9Query (some c9Options) =
      (match assembleQuery c9Query (some c9Options) with
      | .error e => .error e
      | .ok t => .ok ⟨t, []⟩) ∧
    assembleQuery c9Query (some c9Options) =
      .ok "SELECT a.x AS x FROM t AS a WHERE (?p and $foo)" :=
  ⟨(C9_macroPass Int).1 c9Query c9Options rfl, rfl⟩

/-- Counterexample to claim C3 as stated: the assembled text contains the
placeholder `?x` and `x` is not a key of the supplied map, yet
composition fails with `Missing order_by` — a message that does not
contain `Missing parameter: x` — because the macro pass runs first. -/
theorem C3_counterexample :
    assembleQuery c3Query (some c3Options) =
      .ok "SELECT u.id AS id FROM users AS u WHERE ($order_by ?x)" ∧
    qTokens "SELECT u.id AS id FROM users AS u WHERE ($order_by ?x)".data =
      ["x"] ∧
    jsLookup c3Params "x" = none ∧
    c3Options.params = some c3Params ∧
    buildComplexSQL c3Query (some c3Options) = .error "Missing order_by" ∧
    strContains "Missing order_by" "Missing parameter: x" = false := by
  refine ⟨rfl, ?_, rfl, rfl, ?_, rfl⟩
  · simp [qTokens, isIdentStart, isIdentChar]
  · rw [buildComplexSQL_params c3Query (some c3Options) c3Params rfl
      "SELECT u.id AS id FROM users AS u WHERE ($order_by ?x)" rfl]
    rw [show dollarSubst (orderByCondition (some c3Options))
        "SELECT u.id AS id FROM users AS u WHERE ($order_by ?x)".data =
        .error "Missing order_by" from by
      simp [orderByCondition, c3Options, dollarSubst, isIdentStart,
        isIdentChar]]

/-- Claim C3, amended: provided the macro pass succeeds, a composition
whose post-macro text contains a placeholder `?name` with `name` missing
from the supplied map fails with `BuildError "Missing parameter: m"`
where `m` is the *leftmost* missing placeholder name (which need not be
`name` itself), and no result is produced; a macro-pass failure
(`Missing order_by`) pre-empts this error. -/
theorem C3_amended (α : Type) :
    (∀ (m : List (String × α)) (cs : List Char) (t : String),
      (qTokens cs).find? (fun t0 => (jsLookup m t0).isNone) = some t →
      questionSubst m cs = .error ("Missing parameter: " ++ t)) ∧
    (∀ (q : SQLQuery) (o : BuildComplexSQLParams α)
      (m : List (String × α)) (txt : String) (d : List Char) (t : String),
      o.params = some m →
      assembleQuery q (some o) = .ok txt →
      dollarSubst (orderByCondition (some o)) txt.data = .ok d →
      (qTokens d).find? (fun t0 => (jsLookup m t0).isNone) = some t →
      buildComplexSQL q (some o) = .error ("Missing parameter: " ++ t)) := by
  constructor
  · intro m cs t h
    exact questionSubst_first_missing m cs t h
  · intro q o m txt d t ho htxt hd hfind
    rw [buildComplexSQL_params2 q (some o) m (by simp [ho]) txt htxt d hd,
      questionSubst_first_missing m d t hfind]

/-- Witness for the amended C3 at a concrete input with two missing
placeholders: the leftmost one is reported. -/
theorem C3_amended_witness :
    questionSubst ([] : List (String × Int)) "?a ?b".data =
      .error ("Missing parameter: " ++ "a") :=
  (C3_amended Int).1 [] "?a ?b".data "a"
    (by simp [qTokens, isIdentStart, isIdentChar, jsLookup])

/-- Claim C4: for every composition with a supplied named-parameter map
that succeeds, the output parameter list is exactly the left-to-right
list of looked-up values of the `?name` placeholders of the final
(post-macro) text — one entry per occurrence, not per unique name, so a
name occurring k times contributes k entries equal to its value, at the
positions of those occurrences. -/
theorem C4_paramOrder (α : Type) :
    (∀ (m : List (String × α)) (cs chars : List Char) (vals : List α),
      questionSubst m cs = .ok (chars, vals) →
      lookupAll m (qTokens cs) = some vals ∧
      vals.length = (qTokens cs).length ∧
      (∀ (i : Nat) (h1 : i < (qTokens cs).length) (h2 : i < vals.length),
        jsLookup m ((qTokens cs).get ⟨i, h1⟩) = some (vals.get ⟨i, h2⟩))) ∧
    (∀ (q : SQLQuery) (o : BuildComplexSQLParams α)
      (m : List (String × α)) (r : BuildResult α),
      o.params = some m → buildComplexSQL q (some o) = .ok r →
      ∃ txt d, assembleQuery q (some o) = .ok txt ∧
        dollarSubst (orderByCondition (some o)) txt.data = .ok d ∧
        lookupAll m (qTokens d) = some r.params ∧
        r.params.length = (qTokens d).length) := by
  constructor
  · intro m cs chars vals h
    have h1 := questionSubst_ok_vals m cs chars vals h
    exact ⟨h1, lookupAll_length m _ _ h1, lookupAll_get m _ _ h1⟩
  · intro q o m r ho hok
    cases ht : assembleQuery q (some o) with
    | error e =>
      rw [buildComplexSQL_err_assemble q (some o) e ht] at hok
      cases hok
    | ok txt =>
      cases hd : dollarSubst (orderByCondition (some o)) txt.data with
      | error e =>
        rw [buildComplexSQL_err_dollar q (some o) m (by simp [ho]) txt ht
          e hd] at hok
        cases hok
      | ok d =>
        rw [buildComplexSQL_params2 q (some o) m (by simp [ho]) txt ht
          d hd] at hok
        cases hqs : questionSubst m d with
        | error e => rw [hqs] at hok; cases hok
        | ok p =>
          cases p with
          | mk chars vals =>
            rw [hqs] at hok
            have hr : r = ⟨String.mk chars, vals⟩ := by
              cases hok
              rfl
            subst hr
            have h1 := questionSubst_ok_vals m d chars vals hqs
            exact ⟨txt, d, rfl, hd, h1, lookupAll_length m _ _ h1⟩

/-- Witness for C4 at a concrete input where `?x` occurs twice: two
entries, each the value of `x`. -/
theorem C4_paramOrder_witness :
    lookupAll [("x", (7 : Int))] (qTokens "?x y ?x".data) = some [7, 7] ∧
    ([7, 7] : List Int).length = (qTokens "?x y ?x".data).length :=
  have h := ((C4_paramOrder Int).1 [("x", (7 : Int))] "?x y ?x".data
    "? y ?".data [7, 7]
    (by simp [questionSubst, isIdentStart, isIdentChar, jsLookup]))
  ⟨h.1, h.2.1⟩

/-- Assembly success implies validation success. -/
theorem assembleQuery_ok_validate (q : SQLQuery)
    (o : Option (BuildComplexSQLParams α)) (txt : String)
    (ht : assembleQuery q o = .ok txt) :
    validateInputs q o = .ok () := by
  cases hvv : validateInputs q o with
  | error e =>
    simp [assembleQuery, hvv] at ht
  | ok u =>
    cases u
    rfl

/-- Claim C8: for every valid composition, if `page_size` is supplied the
output ends with `LIMIT <page_size>` and carries no OFFSET clause when
`page` is absent; if both `page` and `page_size` are supplied the output
ends with `LIMIT <page_size> OFFSET <page * page_size>`. -/
theorem C8_limitOffset (α : Type) (q : SQLQuery)
    (o : BuildComplexSQLParams α) (r : BuildResult α)
    (hok : buildComplexSQL q (some o) = .ok r) :
    (∀ s : Int, o.page_size = some s → o.page = none →
      ∃ pre, r.query = pre ++ " LIMIT " ++ toString s) ∧
    (∀ p s : Int, o.page = some p → o.page_size = some s →
      ∃ pre, r.query = pre ++ " LIMIT " ++ toString s ++ " OFFSET " ++
        toString (p * s)) := by
  cases ht : assembleQuery q (some o) with
  | error e =>
    rw [buildComplexSQL_err_assemble q (some o) e ht] at hok
    cases hok
  | ok txt =>
  have hv : validateInputs q (some o) = .ok () :=
    assembleQuery_ok_validate q (some o) txt ht
  have hiff := (validateInputs_ok_iff q (some o)).mp hv
  simp only [Bool.and_eq_true] at hiff
  obtain ⟨⟨⟨⟨⟨hso, hal⟩, hfo⟩, hpg⟩, hps⟩, hsub⟩ := hiff
  obtain ⟨fc, hfc⟩ := fromClauseOf_ok q hso
  rw [assembleQuery_eq_ok q (some o) hv fc hfc] at ht
  injection ht with htxt
  constructor
  · intro s hs hpnone
    have hs0 : 0 < s := by
      simp only [pageSizeOk, hs, decide_eq_true_eq] at hps
      exact hps
    have hsne : ¬ (s = 0) := by omega
    have hlimit : limitClauseOf (some o) = "LIMIT " ++ toString s := by
      simp [limitClauseOf, hs, hsne]
    have hoffset : offsetClauseOf (some o) = "" := by
      simp [offsetClauseOf, hpnone]
    have hlimne : ¬ (("LIMIT " ++ toString s) = "") :=
      str_append_ne "LIMIT " (toString s) (by decide)
    have hfrag : fragmentsOf q (some o) fc =
        [withClauseOf q, buildSelectClause q (some o), fc,
          joinClausesOf q, whereClauseOf q (some o),
          orderByClauseOf (some o)] ++ ["LIMIT " ++ toString s, ""] := by
      unfold fragmentsOf
      rw [hlimit, hoffset]
      rfl
    have hstep : ([withClauseOf q, buildSelectClause q (some o), fc,
          joinClausesOf q, whereClauseOf q (some o),
          orderByClauseOf (some o)] ++
          ["LIMIT " ++ toString s, ""]).filter (fun s => s ≠ "") =
        ([withClauseOf q, buildSelectClause q (some o), fc,
          joinClausesOf q, whereClauseOf q (some o),
          orderByClauseOf (some o)] ++
          ["LIMIT " ++ toString s]).filter (fun s => s ≠ "") := by
      simp only [List.filter_append]
      simp [hlimne]
    obtain ⟨pre0, hpre0⟩ := joinSep_filter_concat
      [withClauseOf q, buildSelectClause q (some o), fc,
        joinClausesOf q, whereClauseOf q (some o), orderByClauseOf (some o)]
      ("LIMIT " ++ toString s) hlimne (buildSelectClause q (some o))
      (by simp) (buildSelectClause_ne q (some o))
    have htxt2 : txt = pre0 ++ (" LIMIT " ++ toString s) := by
      rw [← htxt, hfrag, hstep, hpre0, str_assoc]
      rw [show ∀ z : String, " " ++ ("LIMIT " ++ z) = " LIMIT " ++ z from
        fun z => rfl]
    have hsafe := int_toString_safe s (by omega)
    have hbd : '$' ∉ (" LIMIT " ++ toString s).data := by
      rw [String.data_append]
      intro hmem
      rcases List.mem_append.mp hmem with h | h
      · exact absurd h (by decide)
      · exact hsafe.1 h
    have hbq : '?' ∉ (" LIMIT " ++ toString s).data := by
      rw [String.data_append]
      intro hmem
      rcases List.mem_append.mp hmem with h | h
      · exact absurd h (by decide)
      · exact hsafe.2 h
    have hbt : tailSafe ((" LIMIT " ++ toString s).data) = true := rfl
    have hdata : txt.data = pre0.data ++ (" LIMIT " ++ toString s).data := by
      rw [htxt2, String.data_append]
    cases hop : o.params with
    | none =>
      rw [buildComplexSQL_no_params q (some o) (by simp [hop])] at hok
      rw [assembleQuery_eq_ok q (some o) hv fc hfc, htxt] at hok
      have hr : r = ⟨txt, []⟩ := by
        cases hok
        rfl
      subst hr
      exact ⟨pre0, by rw [htxt2, ← str_assoc]⟩
    | some m =>
      cases hd : dollarSubst (orderByCondition (some o)) txt.data with
      | error e =>
        rw [buildComplexSQL_err_dollar q (some o) m (by simp [hop]) txt
          (by rw [assembleQuery_eq_ok q (some o) hv fc hfc, htxt]) e hd]
          at hok
        cases hok
      | ok d =>
        rw [buildComplexSQL_params2 q (some o) m (by simp [hop]) txt
          (by rw [assembleQuery_eq_ok q (some o) hv fc hfc, htxt]) d hd]
          at hok
        cases hqs : questionSubst m d with
        | error e => rw [hqs] at hok; cases hok
        | ok pp =>
          cases pp with
          | mk chars vals =>
            rw [hqs] at hok
            have hr : r = ⟨String.mk chars, vals⟩ := by
              cases hok
              rfl
            subst hr
            rw [hdata] at hd
            obtain ⟨pre1, hpre1⟩ := subst_suffix
              (orderByCondition (some o)) m pre0.data
              (" LIMIT " ++ toString s).data hbt hbd hbq d hd chars vals
              hqs
            refine ⟨String.mk pre1, ?_⟩
            show String.mk chars = _
            rw [hpre1, string_mk_append, string_mk_data, ← str_assoc]
  · intro p s hp hs
    have hs0 : 0 < s := by
      simp only [pageSizeOk, hs, decide_eq_true_eq] at hps
      exact hps
    have hp0 : 0 ≤ p := by
      simp only [pageOk, hp, decide_eq_true_eq] at hpg
      exact hpg
    have hsne : ¬ (s = 0) := by omega
    have hlimit : limitClauseOf (some o) = "LIMIT " ++ toString s := by
      simp [limitClauseOf, hs, hsne]
    have hoffset : offsetClauseOf (some o) =
        "OFFSET " ++ toString (p * s) := by
      simp [offsetClauseOf, hp, hs]
    have hlimne : ¬ (("LIMIT " ++ toString s) = "") :=
      str_append_ne "LIMIT " (toString s) (by decide)
    have hoffne : ¬ (("OFFSET " ++ toString (p * s)) = "") :=
      str_append_ne "OFFSET " (toString (p * s)) (by decide)
    have hfrag : fragmentsOf q (some o) fc =
        [withClauseOf q, buildSelectClause q (some o), fc,
          joinClausesOf q, whereClauseOf q (some o),
          orderByClauseOf (some o)] ++
          ["LIMIT " ++ toString s, "OFFSET " ++ toString (p * s)] := by
      unfold fragmentsOf
      rw [hlimit, hoffset]
      rfl
    obtain ⟨pre0, hpre0⟩ := joinSep_filter_concat2
      [withClauseOf q, buildSelectClause q (some o), fc,
        joinClausesOf q, whereClauseOf q (some o), orderByClauseOf (some o)]
      ("LIMIT " ++ toString s) ("OFFSET " ++ toString (p * s)) hlimne
      hoffne (buildSelectClause q (some o)) (by simp)
      (buildSelectClause_ne q (some o))
    have htxt2 : txt = pre0 ++ (" LIMIT " ++ (toString s ++
        (" OFFSET " ++ toString (p * s)))) := by
      rw [← htxt, hfrag, hpre0]
      simp only [str_assoc]
      rw [show ∀ z : String, " " ++ ("OFFSET " ++ z) = " OFFSET " ++ z
        from fun z => rfl]
      rw [show ∀ z : String, "LIMIT " ++ (toString s ++ z) =
        ("LIMIT " ++ toString s) ++ z from fun z => (str_assoc _ _ _).symm]
      rw [show ∀ z : String, " " ++ (("LIMIT " ++ toString s) ++ z) =
        (" " ++ ("LIMIT " ++ toString s)) ++ z from
        fun z => (str_assoc _ _ _).symm]
      rw [show " " ++ ("LIMIT " ++ toString s) = " LIMIT " ++ toString s
        from rfl]
      simp only [str_assoc]
    have hsafeS := int_toString_safe s (by omega)
    have hsafeP := int_toString_safe (p * s) (by positivity)
    have hbd : '$' ∉ (" LIMIT " ++ (toString s ++
        (" OFFSET " ++ toString (p * s)))).data := by
      simp only [String.data_append]
      intro hmem
      rcases List.mem_append.mp hmem with h | h
      · exact absurd h (by decide)
      rcases List.mem_append.mp h with h | h
      · exact hsafeS.1 h
      rcases List.mem_append.mp h with h | h
      · exact absurd h (by decide)
      · exact hsafeP.1 h
    have hbq : '?' ∉ (" LIMIT " ++ (toString s ++
        (" OFFSET " ++ toString (p * s)))).data := by
      simp only [String.data_append]
      intro hmem
      rcases List.mem_append.mp hmem with h | h
      · exact absurd h (by decide)
      rcases List.mem_append.mp h with h | h
      · exact hsafeS.2 h
      rcases List.mem_append.mp h with h | h
      · exact absurd h (by decide)
      · exact hsafeP.2 h
    have hbt : tailSafe ((" LIMIT " ++ (toString s ++
        (" OFFSET " ++ toString (p * s)))).data) = true := rfl
    have hdata : txt.data = pre0.data ++ (" LIMIT " ++ (toString s ++
        (" OFFSET " ++ toString (p * s)))).data := by
      rw [htxt2, String.data_append]
    cases hop : o.params with
    | none =>
      rw [buildComplexSQL_no_params q (some o) (by simp [hop])] at hok
      rw [assembleQuery_eq_ok q (some o) hv fc hfc, htxt] at hok
      have hr : r = ⟨txt, []⟩ := by
        cases hok
        rfl
      subst hr
      refine ⟨pre0, ?_⟩
      show txt = _
      rw [htxt2]
      simp only [str_assoc]
    | some m =>
      cases hd : dollarSubst (orderByCondition (some o)) txt.data with
      | error e =>
        rw [buildComplexSQL_err_dollar q (some o) m (by simp [hop]) txt
          (by rw [assembleQuery_eq_ok q (some o) hv fc hfc, htxt]) e hd]
          at hok
        cases hok
      | ok d =>
        rw [buildComplexSQL_params2 q (some o) m (by simp [hop]) txt
          (by rw [assembleQuery_eq_ok q (some o) hv fc hfc, htxt]) d hd]
          at hok
        cases hqs : questionSubst m d with
        | error e => rw [hqs] at hok; cases hok
        | ok pp =>
          cases pp with
          | mk chars vals =>
            rw [hqs] at hok
            have hr : r = ⟨String.mk chars, vals⟩ := by
              cases hok
              rfl
            subst hr
            rw [hdata] at hd
            obtain ⟨pre1, hpre1⟩ := subst_suffix
              (orderByCondition (some o)) m pre0.data
              (" LIMIT " ++ (toString s ++
                (" OFFSET " ++ toString (p * s)))).data hbt hbd hbq d hd
              chars vals hqs
            refine ⟨String.mk pre1, ?_⟩
            show String.mk chars = _
            rw [hpre1, string_mk_append, string_mk_data]
            simp only [str_assoc]

/-- Witness for C8: page=2, page_size=10 yields `LIMIT 10 OFFSET 20`. -/
theorem C8_limitOffset_witness :
    ∃ pre,
      (BuildResult.query
        (⟨"SELECT u.id AS id FROM users AS u LIMIT 10 OFFSET 20", []⟩ :
          BuildResult Int)) =
        pre ++ " LIMIT " ++ toString (10 : Int) ++ " OFFSET " ++
          toString ((2 : Int) * 10) :=
  (C8_limitOffset Int c8Query c8Options
    ⟨"SELECT u.id AS id FROM users AS u LIMIT 10 OFFSET 20", []⟩ rfl).2
    2 10 rfl rfl

/-- Claim C10: for every valid query with no filter of its own, if the
options filter is a nonempty string of whitespace only, the composed
output still contains the keyword WHERE followed by an empty condition
list (the WHERE fragment is exactly `"WHERE "`), rather than omitting the
WHERE clause. -/
theorem C10_whereClause (α : Type) (q : SQLQuery)
    (o : BuildComplexSQLParams α) (w : String) (r : BuildResult α)
    (hqw : q.whereCond = none) (how : o.whereCond = some w) (hne : w ≠ "")
    (hws : ∀ c ∈ w.data, c.isWhitespace = true)
    (hok : buildComplexSQL q (some o) = .ok r) :
    whereClauseOf q (some o) = "WHERE " ∧
    ∃ pre post, r.query = pre ++ " WHERE " ++ post := by
  have htrim : jsTrim w = "" := jsTrim_all_ws w hws
  have hwc : whereClauseOf q (some o) = "WHERE " := by
    have h1 : "WHERE " ++ joinSep " AND " [] = "WHERE " := rfl
    simp [whereClauseOf, hqw, how, truthyS, hne, htrim, h1]
  refine ⟨hwc, ?_⟩
  cases ht : assembleQuery q (some o) with
  | error e =>
    rw [buildComplexSQL_err_assemble q (some o) e ht] at hok
    cases hok
  | ok txt =>
  have hv : validateInputs q (some o) = .ok () :=
    assembleQuery_ok_validate q (some o) txt ht
  have hiff := (validateInputs_ok_iff q (some o)).mp hv
  simp only [Bool.and_eq_true] at hiff
  obtain ⟨⟨⟨⟨⟨hso, hal⟩, hfo⟩, hpg⟩, hps⟩, hsub⟩ := hiff
  obtain ⟨fc, hfc⟩ := fromClauseOf_ok q hso
  rw [assembleQuery_eq_ok q (some o) hv fc hfc] at ht
  injection ht with htxt
  have hfrag : fragmentsOf q (some o) fc =
      [withClauseOf q, buildSelectClause q (some o), fc,
        joinClausesOf q] ++ "WHERE " ::
        [orderByClauseOf (some o), limitClauseOf (some o),
          offsetClauseOf (some o)] := by
    unfold fragmentsOf
    rw [hwc]
    rfl
  obtain ⟨pre0, post0, hjoin, hpost0⟩ := joinSep_filter_mid
    [withClauseOf q, buildSelectClause q (some o), fc, joinClausesOf q]
    [orderByClauseOf (some o), limitClauseOf (some o),
      offsetClauseOf (some o)]
    "WHERE " (by decide) (buildSelectClause q (some o)) (by simp)
    (buildSelectClause_ne q (some o))
  have htxtA : txt = pre0 ++ " " ++ "WHERE " ++ post0 := by
    rw [← htxt, hfrag, hjoin]
  have hdata : txt.data = pre0.data ++ (" WHERE ".data ++ post0.data) := by
    rw [htxtA]
    simp [String.data_append, List.append_assoc]
  cases hop : o.params with
  | none =>
    rw [buildComplexSQL_no_params q (some o) (by simp [hop])] at hok
    rw [assembleQuery_eq_ok q (some o) hv fc hfc, htxt] at hok
    have hr : r = ⟨txt, []⟩ := by
      cases hok
      rfl
    subst hr
    refine ⟨pre0, post0, ?_⟩
    show txt = _
    rw [htxtA]
    rw [show pre0 ++ " " ++ "WHERE " = pre0 ++ " WHERE " from by
      rw [str_assoc]
      rfl]
  | some m =>
    cases hd : dollarSubst (orderByCondition (some o)) txt.data with
    | error e =>
      rw [buildComplexSQL_err_dollar q (some o) m (by simp [hop]) txt
        (by rw [assembleQuery_eq_ok q (some o) hv fc hfc, htxt]) e hd]
        at hok
      cases hok
    | ok d =>
      rw [buildComplexSQL_params2 q (some o) m (by simp [hop]) txt
        (by rw [assembleQuery_eq_ok q (some o) hv fc hfc, htxt]) d hd]
        at hok
      cases hqs : questionSubst m d with
      | error e => rw [hqs] at hok; cases hok
      | ok pp =>
        cases pp with
        | mk chars vals =>
          rw [hqs] at hok
          have hr : r = ⟨String.mk chars, vals⟩ := by
            cases hok
            rfl
          subst hr
          rw [hdata] at hd
          obtain ⟨pre1, post1, hpre1⟩ := subst_mid
            (orderByCondition (some o)) m pre0.data " WHERE ".data
            post0.data (by decide) rfl (by decide) (by decide) d hd chars
            vals hqs
          refine ⟨String.mk pre1, String.mk post1, ?_⟩
          show String.mk chars = _
          rw [hpre1, string_mk_append, string_mk_append, string_mk_data]

/-- Witness for C10: the composed text keeps an empty WHERE clause. -/
theorem C10_whereClause_witness :
    whereClauseOf c10Query (some c10Options) = "WHERE " ∧
    ∃ pre post,
      (BuildResult.query
        (⟨"SELECT u.id AS id FROM users AS u WHERE ", []⟩ :
          BuildResult Int)) = pre ++ " WHERE " ++ post :=
  C10_whereClause Int c10Query c10Options "   "
    ⟨"SELECT u.id AS id FROM users AS u WHERE ", []⟩ rfl rfl (by decide)
    (by decide) rfl

end ComposTy
